import Mathlib

/-!
Shallow embedding of the game server in `src/index.js` (and its near-duplicate
variant `src/unnamed/part_000`): a timed, turn-based multiplayer word-association
game.  The server keeps a roster of players, a shared `gameState` record with a
semantic chain of words, and evaluates each round's submissions through an
external scoring oracle.

Modelling conventions:
* the single-threaded JavaScript event loop is modelled by pure functions from
  server state to server state plus a list of emitted socket events;
* `evaluateRound` is an `async` function whose only suspension point is the
  oracle call; it is split at that point into `evaluateRound` (the synchronous
  prefix up to and including issuing the oracle request) and
  `evaluateRoundResume` (the continuation after the `await`, receiving the
  oracle's response).  The suspended continuation's local `guesses` array is
  stored in the `pendingEval` field of the server state;
* the oracle response is a parameter (`Except Unit (List OracleResult)`), an
  exception (request failure or unparseable body) being `Except.error`;
* `Math.random`-driven choices (`seed word`, `randomIndex`) are parameters;
* JavaScript dictionaries keyed by socket id are association lists kept in
  insertion order (`Object.values` enumerates string keys in insertion order);
* absent JS object fields read as `undefined` (falsy); they are modelled by
  `Option`/`Bool`/`Nat` defaults in the initial state.
-/

namespace Jogo

/-- `const TURN_DURATION = 30` (src/index.js line 9). -/
def TURN_DURATION : Nat := 30

/-- `const MAX_TURNS = 10` (src/index.js line 10). -/
def MAX_TURNS : Nat := 10

/-- The fixed color palette (src/index.js line 11). -/
def colors : List String :=
  ["#E53935", "#1E88E5", "#43A047", "#FDD835", "#8E24AA", "#D81B60", "#F4511E", "#3949AB"]

/-- The seed-word set of `resetGame` (src/index.js line 19). -/
def seedWords : List String :=
  ["Futuro", "Natureza", "Arte", "Sociedade", "Conhecimento", "Justiça"]

/-- A roster entry (`players[socket.id]`, src/index.js lines 156-163).  The
`isHost` field is read by the connection handler (`p.isHost`) but never
written by any code path, so it models the always-`undefined` JS property. -/
structure Player where
  id : String
  name : String
  color : String
  score : Int
  submitted : Bool
  lastGuess : Option String
  isHost : Bool
deriving Repr, DecidableEq

/-- `gameState.status` values. -/
inductive Status where
  | lobby
  | playing
  | finished
deriving Repr, DecidableEq

/-- One node of the semantic chain (`{ word, playerId }`). -/
structure ChainNode where
  word : String
  playerId : Option String
deriving Repr, DecidableEq

/-- The `gameState` global (src/index.js lines 28-37).  `gamePlayers` and
`gameHostId` are the snapshots stored into the object by `resetGame`; they are
only used in broadcasts. -/
structure GameState where
  status : Status
  gamePlayers : List Player
  gameHostId : Option String
  chain : List ChainNode
  turn : Nat
  maxTurns : Nat
  isRoundActive : Bool
  isEvaluating : Bool
  timeLeft : Nat
deriving Repr, DecidableEq

/-- One element of the local `guesses` array of `evaluateRound`
(src/index.js line 69): `{ groupId: p.id, word: p.lastGuess }`, with the
`score` property attached later by the oracle-matching loop. -/
structure Guess where
  groupId : String
  word : String
  score : Option Int
deriving Repr, DecidableEq

/-- One entry of the oracle's `results` array: `{ word, score }`. -/
structure OracleResult where
  word : String
  score : Int
deriving Repr, DecidableEq

/-- The semantic payload of the oracle request built in `evaluateRound`
(src/index.js line 79): the target word and the candidate list. -/
structure OracleRequest where
  target : String
  candidates : List String
deriving Repr, DecidableEq

/-- Events broadcast through `io.emit`. -/
inductive Event where
  | timer (n : Nat)
  | gameStateEv
  | lobbyStateEv
  | roundResult (msg : String)
  | gameOver
deriving Repr, DecidableEq

/-- The whole mutable server state: the module-level globals of src/index.js
(`players`, `hostId`, `gameState`, `timerInterval`) plus `pendingEval`, which
holds the local `guesses` array of a suspended `evaluateRound` continuation
while the oracle call is in flight. -/
structure ServerState where
  players : List Player
  hostId : Option String
  game : GameState
  timerActive : Bool
  pendingEval : Option (List Guess)
deriving Repr, DecidableEq

/-- JavaScript's `toLowerCase()`, rendered on the character data (ASCII case
mapping).  Lean core's `String.toLower` recurses on byte positions with a
well-founded measure, which blocks definitional evaluation, so the embedding
maps over `String.data` instead. -/
def lower (s : String) : String := ⟨s.data.map Char.toLower⟩

/-- JavaScript's `toUpperCase()`, rendered on the character data. -/
def upper (s : String) : String := ⟨s.data.map Char.toUpper⟩

/-- The initial globals (src/index.js lines 13-16): empty roster, no host,
`gameState = { status: 'lobby' }` (all other fields absent/falsy), no timer. -/
def initialState : ServerState :=
  { players := []
    hostId := none
    game :=
      { status := .lobby, gamePlayers := [], gameHostId := none, chain := []
        turn := 0, maxTurns := 0, isRoundActive := false, isEvaluating := false
        timeLeft := 0 }
    timerActive := false
    pendingEval := none }

/-- Dictionary lookup `players[id]`. -/
def findPlayer (ps : List Player) (id : String) : Option Player :=
  ps.find? (fun p => p.id == id)

/-- Dictionary write `players[id] = p`: replace in place if the key exists,
otherwise append (JS objects keep string keys in insertion order). -/
def setPlayer (ps : List Player) (p : Player) : List Player :=
  if (ps.find? (fun q => q.id == p.id)).isSome then
    ps.map (fun q => if q.id = p.id then p else q)
  else ps ++ [p]

/-- `function resetGame()` (src/index.js lines 18-38), with the random seed
index as a parameter (`Math.floor(Math.random() * seedWords.length)`, always
`< seedWords.length` at runtime). -/
def resetGame (s : ServerState) (r : Nat) : ServerState :=
  let randomSeed := seedWords.getD r ""
  let ps := s.players.map (fun p => { p with score := 0, submitted := false, lastGuess := none })
  { s with
    players := ps
    game :=
      { status := .playing, gamePlayers := ps, gameHostId := s.hostId
        chain := [⟨randomSeed, none⟩], turn := 1, maxTurns := MAX_TURNS
        isRoundActive := true, isEvaluating := false, timeLeft := s.game.timeLeft } }

/-- `function startTurnTimer()` (src/index.js lines 40-44): set `timeLeft`,
emit it, cancel any previous interval and install a fresh one.  The ticking
callback itself is `tick` below. -/
def startTurnTimer (s : ServerState) : ServerState × List Event :=
  ({ s with game := { s.game with timeLeft := TURN_DURATION }, timerActive := true },
   [Event.timer TURN_DURATION])

/-- `function startNextTurn()` (src/index.js lines 121-136). -/
def startNextTurn (s : ServerState) : ServerState × List Event :=
  if MAX_TURNS ≤ s.game.turn then
    ({ s with game := { s.game with status := .finished } }, [Event.gameOver])
  else
    let ps := s.players.map (fun p => { p with submitted := false, lastGuess := none })
    let s1 : ServerState :=
      { s with
        players := ps
        game := { s.game with turn := s.game.turn + 1, isRoundActive := true, isEvaluating := false } }
    let (s2, evs) := startTurnTimer s1
    (s2, Event.gameStateEv :: evs)

/-- The submissions snapshot of `evaluateRound` (src/index.js lines 67-69):
`Object.values(players).filter(p => p.submitted).map(p => ({groupId: p.id, word: p.lastGuess}))`.
`submitted` and `lastGuess` are always set together by `submitGuess`, so the
`getD ""` default for a missing `lastGuess` is never exercised. -/
def guessesOf (ps : List Player) : List Guess :=
  (ps.filter (fun p => p.submitted)).map (fun p => ⟨p.id, p.lastGuess.getD "", none⟩)

/-- `gameState.chain[gameState.chain.length - 1].word` (src/index.js line 66). -/
def lastTermInChain (g : GameState) : String :=
  ((g.chain.getLast?).map (fun n => n.word)).getD ""

/-- Result of running one synchronous reaction that may issue an oracle call:
the new state, the events emitted, and the oracle request issued (if any). -/
structure StartResult where
  state : ServerState
  events : List Event
  call : Option OracleRequest
deriving Repr, DecidableEq

/-- The synchronous prefix of `async function evaluateRound()`
(src/index.js lines 59-85): the single-flight guard, flag updates, timer
cancellation, state broadcast, submission snapshot, the empty-round short
circuit, and the construction and dispatch of the oracle request.  When the
request is issued the continuation's `guesses` array is parked in
`pendingEval`, to be consumed by `evaluateRoundResume`. -/
def evaluateRound (s : ServerState) : StartResult :=
  if s.game.isEvaluating then ⟨s, [], none⟩
  else
    let s1 : ServerState :=
      { s with
        game := { s.game with isEvaluating := true, isRoundActive := false }
        timerActive := false }
    let guesses := guessesOf s1.players
    if guesses.length = 0 then
      let (s2, evs2) := startNextTurn s1
      ⟨s2, Event.gameStateEv :: Event.roundResult "Ninguém jogou nesta rodada. Pulando..." :: evs2, none⟩
    else
      ⟨{ s1 with pendingEval := some guesses },
       [Event.gameStateEv],
       some ⟨lastTermInChain s1.game, guesses.map (fun g => g.word)⟩⟩

/-- One pass of the oracle-matching loop body (src/index.js lines 90-93):
`guesses.find(g => g.word.toLowerCase() === result.word.toLowerCase())` and,
when found, `guess.score = result.score` on that first match. -/
def applyResult (gs : List Guess) (r : OracleResult) : List Guess :=
  match gs with
  | [] => []
  | g :: rest =>
    if lower g.word = lower r.word then { g with score := some r.score } :: rest
    else g :: applyResult rest r

/-- `guess.score || 0`: the sort key and the value displayed in messages. -/
def scoreVal (g : Guess) : Int := g.score.getD 0

/-- `(guess.score >= 57) ? 2 : 0` (src/index.js line 100); an absent `score`
(`undefined`) compares as false. -/
def thresholdPoints (g : Guess) : Int :=
  match g.score with
  | some v => if 57 ≤ v then 2 else 0
  | none => 0

/-- Insert into a descending-sorted list, after every strictly larger key:
the unique stable realisation of `guesses.sort((a, b) => (b.score || 0) - (a.score || 0))`
(src/index.js line 95; JS `Array.prototype.sort` is stable). -/
def insertGuess (g : Guess) : List Guess → List Guess
  | [] => [g]
  | h :: t => if scoreVal g < scoreVal h then h :: insertGuess g t else g :: h :: t

/-- The stable descending sort of src/index.js line 95. -/
def sortGuesses : List Guess → List Guess
  | [] => []
  | g :: rest => insertGuess g (sortGuesses rest)

/-- `const winnerOfTheRound = guesses[0]` after matching and sorting
(src/index.js lines 87-96). -/
def winnerOfTheRound (gs : List Guess) (results : List OracleResult) : Option Guess :=
  (sortGuesses (results.foldl applyResult gs)).head?

/-- The scoring loop (src/index.js lines 99-104): walk the sorted guesses,
award `thresholdPoints` plus the 5-point winner bonus, mutate the roster and
accumulate the per-player message lines.  The `Bool` is `false` when
`players[guess.groupId]` is missing, where the JS loop throws (the roster
mutations made so far persist). -/
def scoreLoop (ps : List Player) (winnerId : String) : List Guess → List Player × String × Bool
  | [] => (ps, "", true)
  | g :: rest =>
    let pts : Int := thresholdPoints g + (if g.groupId = winnerId then 5 else 0)
    match findPlayer ps g.groupId with
    | none => (ps, "", false)
    | some p =>
      let ps1 := ps.map (fun q => if q.id = g.groupId then { q with score := q.score + pts } else q)
      let line := p.name ++ " (\"" ++ g.word ++ "\"): " ++ toString (scoreVal g) ++ "% -> +"
        ++ toString pts ++ " pontos\n"
      let (psf, msg, ok) := scoreLoop ps1 winnerId rest
      (psf, line ++ msg, ok)

/-- The round-error notice emitted by the `catch` block (src/index.js line 115). -/
def errMsg : String := "Ocorreu um erro ao falar com a IA. Pulando turno."

/-- The continuation of `async function evaluateRound()` after the oracle
`await` (src/index.js lines 87-118): parse/match the response, sort, pick the
winner, award points, append the randomly chosen submission to the chain,
broadcast the round summary; any exception is caught and replaced by the
error notice; `finally { startNextTurn(); }` always runs.  `oracle` is the
oracle's outcome and `rand` the `randomIndex` draw
(`Math.floor(Math.random() * guesses.length)`, always `< guesses.length` at
runtime; an out-of-range index models `guesses[randomIndex]` being
`undefined`, which throws into the `catch`). -/
def evaluateRoundResume (s : ServerState) (oracle : Except Unit (List OracleResult))
    (rand : Nat) : ServerState × List Event :=
  match s.pendingEval with
  | none => (s, [])
  | some guesses =>
    let s := { s with pendingEval := none }
    match oracle with
    | .error _ =>
      let (s2, evs2) := startNextTurn s
      (s2, Event.roundResult errMsg :: evs2)
    | .ok results =>
      let scored := results.foldl applyResult guesses
      let sorted := sortGuesses scored
      match sorted with
      | [] =>
        let (s2, evs2) := startNextTurn s
        (s2, Event.roundResult errMsg :: evs2)
      | w :: _ =>
        match findPlayer s.players w.groupId with
        | none =>
          let (s2, evs2) := startNextTurn s
          (s2, Event.roundResult errMsg :: evs2)
        | some wp =>
          let header := "Fim do Turno " ++ toString s.game.turn ++ "!\n\nMelhor Conexão: \""
            ++ w.word ++ "\" (" ++ toString (scoreVal w) ++ "%) de " ++ wp.name
            ++ "!\n\n--- PONTOS DA RODADA ---\n"
          match scoreLoop s.players w.groupId sorted with
          | (ps1, body, ok) =>
            let s := { s with players := ps1 }
            if ok then
              match sorted.get? rand with
              | none =>
                let (s2, evs2) := startNextTurn s
                (s2, Event.roundResult errMsg :: evs2)
              | some nd =>
                let s := { s with game :=
                  { s.game with chain := s.game.chain ++ [⟨nd.word, some nd.groupId⟩] } }
                let msg := header ++ body ++ "\n--- SALTO SEMÂNTICO! ---\nA próxima palavra é: \""
                  ++ nd.word ++ "\"!"
                let (s2, evs2) := startNextTurn s
                (s2, Event.roundResult msg :: evs2)
            else
              let (s2, evs2) := startNextTurn s
              (s2, Event.roundResult errMsg :: evs2)

/-- One firing of the `setInterval` callback of `startTurnTimer`
(src/index.js lines 45-56); a no-op when no interval is installed. -/
def tick (s : ServerState) : StartResult :=
  if s.timerActive = false then ⟨s, [], none⟩
  else
    let fired := 0 < s.game.timeLeft
    let s1 := if fired then { s with game := { s.game with timeLeft := s.game.timeLeft - 1 } } else s
    let evs1 := if fired then [Event.timer (s.game.timeLeft - 1)] else []
    if s1.game.timeLeft = 0 then
      let s2 := { s1 with timerActive := false }
      if s2.game.isEvaluating = false then
        let r := evaluateRound s2
        ⟨r.state, evs1 ++ r.events, r.call⟩
      else ⟨s2, evs1, none⟩
    else ⟨s1, evs1, none⟩

/-- The `connection` handler guarded by the `io.use` name middleware
(src/index.js lines 138-165): an empty name or a full/in-progress game
refuses the connection; otherwise the `LIDER` host rule runs and the player
is added to the roster. -/
def handleConnection (s : ServerState) (id nm : String) : ServerState × List Event :=
  if nm = "" then (s, [])
  else if s.game.status = .playing ∨ 50 ≤ s.players.length then (s, [])
  else
    let hostId :=
      if upper nm = "LIDER" ∧ (s.players.any (fun p => p.isHost)) = false
      then some id else s.hostId
    let newP : Player :=
      ⟨id, nm, colors.getD (s.players.length % colors.length) "", 0, false, none, false⟩
    ({ s with players := setPlayer s.players newP, hostId := hostId }, [Event.lobbyStateEv])

/-- The `startGame` handler of src/index.js lines 167-173 (host-gated
variant): accepted iff the sender is the host and the status is not
`playing`. -/
def handleStartGame (s : ServerState) (id : String) (r : Nat) : ServerState × List Event :=
  if s.hostId = some id ∧ s.game.status ≠ .playing then
    let s1 := resetGame s r
    let (s2, evs) := startTurnTimer s1
    (s2, Event.gameStateEv :: evs)
  else (s, [])

/-- The `submitGuess` handler (src/index.js lines 175-184). -/
def handleSubmitGuess (s : ServerState) (id word : String) : StartResult :=
  match findPlayer s.players id with
  | none => ⟨s, [], none⟩
  | some p =>
    if s.game.isRoundActive = true ∧ p.submitted = false then
      let ps := s.players.map
        (fun q => if q.id = id then { q with lastGuess := some word, submitted := true } else q)
      let s1 := { s with players := ps }
      if ps.all (fun q => q.submitted) then
        let r := evaluateRound s1
        ⟨r.state, Event.gameStateEv :: r.events, r.call⟩
      else ⟨s1, [Event.gameStateEv], none⟩
    else ⟨s, [], none⟩

/-- The `disconnect` handler (src/index.js lines 186-196). -/
def handleDisconnect (s : ServerState) (id : String) : ServerState × List Event :=
  if (findPlayer s.players id).isSome then
    let wasHost := s.hostId = some id
    let ps := s.players.filter (fun p => p.id != id)
    ({ s with players := ps, hostId := if wasHost then none else s.hostId },
     [Event.lobbyStateEv])
  else (s, [])

/-! ## Scenario drivers and statement vocabulary

The definitions below are not translations of further source code; they are
the harness used to state theorems about whole turns and sessions: iterated
triggers, iterated timer ticks, folded submission lists, and event counters. -/

/-- Driver: `n` further invocations of `evaluateRound` on the same state, as
happens when several triggers race within one turn; accumulates the events
emitted and the oracle requests issued. -/
def evaluateRoundIter : Nat → ServerState → ServerState × List Event × List OracleRequest
  | 0, s => (s, [], [])
  | n + 1, s =>
    let r := evaluateRound s
    let (s2, evs, calls) := evaluateRoundIter n r.state
    (s2, r.events ++ evs, r.call.toList ++ calls)

/-- Driver: `n` firings of the interval callback. -/
def tickN : Nat → ServerState → ServerState × List Event
  | 0, s => (s, [])
  | n + 1, s =>
    let r := tick s
    let (s2, evs) := tickN n r.state
    (s2, r.events ++ evs)

/-- Driver: deliver a list of `submitGuess` events in order. -/
def submitAll (s : ServerState) (subs : List (String × String)) : ServerState :=
  subs.foldl (fun acc pw => (handleSubmitGuess acc pw.1 pw.2).state) s

/-- Per-round scenario data: the `submitGuess` events of the turn, the
oracle's outcome, and the `randomIndex` draw. -/
structure RoundInput where
  subs : List (String × String)
  oracle : Except Unit (List OracleResult)
  rand : Nat

/-- Driver: play one full turn — deliver the submissions, let the timer run
out (a no-op when the last submission already triggered evaluation), then
resume the suspended evaluation with the oracle's response. -/
def playRound (s : ServerState) (ri : RoundInput) : ServerState :=
  let s1 := submitAll s ri.subs
  let s2 := (tickN (s1.game.timeLeft + 1) s1).1
  (evaluateRoundResume s2 ri.oracle ri.rand).1

/-- Driver: play a sequence of turns. -/
def runRounds (s : ServerState) (rs : List RoundInput) : ServerState :=
  rs.foldl playRound s

/-- Statement helper: how many `roundResult` broadcasts a list of events
contains. -/
def countRoundResults (evs : List Event) : Nat :=
  (evs.filter (fun e => match e with | .roundResult _ => true | _ => false)).length

/-- Statement helper: `true` on `roundResult` events only. -/
def isRoundResult (e : Event) : Bool :=
  match e with | .roundResult _ => true | _ => false

namespace Variant

/-- The `startGame` handler of the hostless variant
(src/unnamed/part_000 lines 105-113): accepted iff the status is `lobby`,
so `finished` really is terminal there. -/
def handleStartGame (s : ServerState) (r : Nat) : ServerState × List Event :=
  if s.game.status = .lobby then
    let s1 := resetGame s r
    let (s2, evs) := startTurnTimer s1
    (s2, Event.gameStateEv :: evs)
  else (s, [])

end Variant

/-! ## Concrete states for counterexamples and witnesses -/

/-- Roster entry: player "a" (Ana), joined first, nothing submitted. -/
def pAna : Player := ⟨"a", "Ana", "#E53935", 0, false, none, false⟩

/-- Roster entry: player "b" (Bia), joined second, nothing submitted. -/
def pBia : Player := ⟨"b", "Bia", "#1E88E5", 0, false, none, false⟩

/-- Roster entry: Ana after submitting "Carro". -/
def pAnaCarro : Player := ⟨"a", "Ana", "#E53935", 0, true, some "Carro", false⟩

/-- Roster entry: Bia after submitting "Carro". -/
def pBiaCarro : Player := ⟨"b", "Bia", "#1E88E5", 0, true, some "Carro", false⟩

/-- A mid-game state at turn 1: seed chain "Futuro", round active, timer
running, nobody has submitted yet. -/
def exBase : ServerState :=
  { players := [pAna, pBia]
    hostId := none
    game :=
      { status := .playing, gamePlayers := [pAna, pBia], gameHostId := none
        chain := [⟨"Futuro", none⟩], turn := 1, maxTurns := MAX_TURNS
        isRoundActive := true, isEvaluating := false, timeLeft := TURN_DURATION }
    timerActive := true
    pendingEval := none }

/-- A mid-game state at turn 1 where only Ana has submitted ("Carro"). -/
def exSub : ServerState := { exBase with players := [pAnaCarro] }

/-- A mid-game state at turn 1 where Ana and Bia both submitted "Carro". -/
def exDup : ServerState := { exBase with players := [pAnaCarro, pBiaCarro] }

/-- A game-over state: turn 10 evaluated, status `finished` (as the code
leaves it: `isEvaluating` still true, no timer), one player left. -/
def exFinished : ServerState :=
  { players := [pAna]
    hostId := none
    game :=
      { status := .finished, gamePlayers := [pAna], gameHostId := none
        chain := [⟨"Futuro", none⟩, ⟨"Carro", some "a"⟩], turn := 10, maxTurns := MAX_TURNS
        isRoundActive := false, isEvaluating := true, timeLeft := 0 }
    timerActive := false
    pendingEval := none }

/-- `exFinished` with player "a" registered as host. -/
def exFinishedHost : ServerState := { exFinished with hostId := some "a" }

/-! ## Basic lemmas about the evaluator -/

/-- The single-flight guard: an invocation arriving while `isEvaluating` is
already true returns immediately, with no state change, no events and no
oracle call. -/
theorem evaluateRound_blocked (s : ServerState) (h : s.game.isEvaluating = true) :
    evaluateRound s = ⟨s, [], none⟩ := by
  simp [evaluateRound, h]

/-- Any number of re-triggers on a state that is mid-evaluation are no-ops. -/
theorem evaluateRoundIter_blocked (k : Nat) (s : ServerState)
    (h : s.game.isEvaluating = true) :
    evaluateRoundIter k s = (s, [], []) := by
  induction k with
  | zero => rfl
  | succ n ih =>
    simp [evaluateRoundIter, evaluateRound_blocked s h, ih]

/-- `startNextTurn` never emits a round-result broadcast. -/
theorem countRoundResults_startNextTurn (s : ServerState) :
    countRoundResults (startNextTurn s).2 = 0 := by
  unfold startNextTurn
  split <;> simp [countRoundResults, startTurnTimer]

/-- `startNextTurn` never touches the chain. -/
theorem chain_startNextTurn (s : ServerState) :
    (startNextTurn s).1.game.chain = s.game.chain := by
  unfold startNextTurn
  split <;> simp [startTurnTimer]

/-- `startNextTurn` never changes any player's cumulative score. -/
theorem scores_startNextTurn (s : ServerState) :
    (startNextTurn s).1.players.map (fun p => p.score) = s.players.map (fun p => p.score) := by
  unfold startNextTurn
  split <;> simp [startTurnTimer]

/-- `startNextTurn` advances: either the game is over (status `finished`) or
the turn counter increments and a fresh round starts. -/
theorem startNextTurn_advances (s : ServerState) :
    (if MAX_TURNS ≤ s.game.turn then (startNextTurn s).1.game.status = .finished
     else (startNextTurn s).1.game.turn = s.game.turn + 1
       ∧ (startNextTurn s).1.game.isRoundActive = true
       ∧ (startNextTurn s).1.game.isEvaluating = false
       ∧ (startNextTurn s).1.game.status = s.game.status) := by
  unfold startNextTurn
  split <;> simp [startTurnTimer]

/-- Writing a fresh entry into the roster dictionary makes it retrievable. -/
theorem findPlayer_setPlayer (ps : List Player) (p : Player) :
    findPlayer (setPlayer ps p) p.id = some p := by
  unfold setPlayer findPlayer
  split
  · rename_i h
    induction ps with
    | nil => simp at h
    | cons q t ih =>
      by_cases hq : q.id = p.id
      · simp [List.find?, hq]
      · have hq' : (q.id == p.id) = false := by simp [hq]
        simp only [List.map_cons, List.find?, if_neg hq, hq']
        apply ih
        simpa [List.find?, hq'] using h
  · rename_i h
    have hnone : ps.find? (fun q => q.id == p.id) = none := by
      cases hfind : ps.find? (fun q => q.id == p.id) with
      | none => rfl
      | some q => simp [hfind] at h
    induction ps with
    | nil => simp [List.find?]
    | cons q t ih =>
      simp only [List.find?] at hnone ⊢
      cases hq : (q.id == p.id) with
      | true => simp [hq] at hnone
      | false =>
        simp only [hq] at hnone ⊢
        exact ih (by simp [List.find?, hnone]) hnone

/-! ## Lemmas about the stable sort and the oracle-response matching -/

/-- "Sorted descending by `score || 0`": every earlier element has a key at
least as large as every later one. -/
def SortedDesc (l : List Guess) : Prop :=
  List.Pairwise (fun a b => scoreVal b ≤ scoreVal a) l

/-- `insertGuess` splits the list after exactly its strictly-larger prefix. -/
theorem insertGuess_decomp (g : Guess) (l : List Guess) :
    ∃ l1 l2, l = l1 ++ l2 ∧ insertGuess g l = l1 ++ g :: l2
      ∧ ∀ h ∈ l1, scoreVal g < scoreVal h := by
  induction l with
  | nil => exact ⟨[], [], rfl, rfl, by simp⟩
  | cons h t ih =>
    by_cases hlt : scoreVal g < scoreVal h
    · obtain ⟨l1, l2, he, hi, hall⟩ := ih
      refine ⟨h :: l1, l2, by simp [he], ?_, ?_⟩
      · simp [insertGuess, hlt, hi]
      · intro x hx
        rcases List.mem_cons.mp hx with rfl | hx
        · exact hlt
        · exact hall x hx
    · exact ⟨[], h :: t, rfl, by simp [insertGuess, hlt], by simp⟩

/-- Membership through `insertGuess`. -/
theorem mem_insertGuess {x g : Guess} {l : List Guess} :
    x ∈ insertGuess g l ↔ x = g ∨ x ∈ l := by
  induction l with
  | nil => simp [insertGuess]
  | cons h t ih =>
    by_cases hlt : scoreVal g < scoreVal h
    · simp only [insertGuess, if_pos hlt, List.mem_cons, ih]
      tauto
    · simp [insertGuess, if_neg hlt]

/-- `sortGuesses` is a permutation of its input. -/
theorem sortGuesses_perm (l : List Guess) : List.Perm (sortGuesses l) l := by
  induction l with
  | nil => rfl
  | cons g t ih =>
    obtain ⟨l1, l2, he, hi, -⟩ := insertGuess_decomp g (sortGuesses t)
    show List.Perm (insertGuess g (sortGuesses t)) (g :: t)
    rw [hi]
    have h1 : List.Perm (l1 ++ g :: l2) (g :: (l1 ++ l2)) := List.perm_middle
    have h2 : List.Perm (g :: (l1 ++ l2)) (g :: t) := by
      rw [← he]
      exact ih.cons g
    exact h1.trans h2

/-- Inserting into a descending-sorted list keeps it sorted. -/
theorem sortedDesc_insertGuess (g : Guess) (l : List Guess) (h : SortedDesc l) :
    SortedDesc (insertGuess g l) := by
  induction l with
  | nil => simp [insertGuess, SortedDesc]
  | cons a t ih =>
    rcases (List.pairwise_cons.mp h) with ⟨ha, ht⟩
    by_cases hlt : scoreVal g < scoreVal a
    · simp only [insertGuess, if_pos hlt, SortedDesc, List.pairwise_cons]
      refine ⟨?_, ih ht⟩
      intro b hb
      rcases mem_insertGuess.mp hb with rfl | hb
      · exact le_of_lt hlt
      · exact ha b hb
    · simp only [insertGuess, if_neg hlt, SortedDesc, List.pairwise_cons]
      refine ⟨?_, ha, ht⟩
      intro b hb
      rcases List.mem_cons.mp hb with rfl | hb
      · exact le_of_not_lt hlt
      · exact le_trans (ha b hb) (le_of_not_lt hlt)

/-- `sortGuesses` sorts descending by `score || 0`. -/
theorem sortedDesc_sortGuesses (l : List Guess) : SortedDesc (sortGuesses l) := by
  induction l with
  | nil => simp [sortGuesses, SortedDesc]
  | cons g t ih => exact sortedDesc_insertGuess g (sortGuesses t) ih

/-- Stability of the sort, phrased through filters: the subsequence of
guesses holding any fixed key is untouched — ties keep their input order. -/
theorem sortGuesses_filter (v : Int) (l : List Guess) :
    (sortGuesses l).filter (fun h => scoreVal h == v)
      = l.filter (fun h => scoreVal h == v) := by
  induction l with
  | nil => rfl
  | cons g t ih =>
    obtain ⟨l1, l2, he, hi, hall⟩ := insertGuess_decomp g (sortGuesses t)
    have hsplit : (sortGuesses t).filter (fun h => scoreVal h == v)
        = l1.filter (fun h => scoreVal h == v) ++ l2.filter (fun h => scoreVal h == v) := by
      rw [he, List.filter_append]
    show (insertGuess g (sortGuesses t)).filter (fun h => scoreVal h == v) = _
    rw [hi, List.filter_append]
    by_cases hgv : scoreVal g = v
    · have hl1 : l1.filter (fun h => scoreVal h == v) = [] := by
        apply List.filter_eq_nil_iff.mpr
        intro h hh
        have := hall h hh
        simp only [beq_iff_eq]
        omega
      have hfl : l2.filter (fun h => scoreVal h == v)
          = t.filter (fun h => scoreVal h == v) := by
        have h2 := hsplit.symm.trans ih
        rw [hl1, List.nil_append] at h2
        exact h2
      have hxv : (scoreVal g == v) = true := by simp [hgv]
      rw [hl1, List.nil_append, List.filter_cons, List.filter_cons, hxv, hfl]
    · have hxv : (scoreVal g == v) = false := by simp [hgv]
      have h2 := hsplit.symm.trans ih
      rw [List.filter_cons, List.filter_cons, hxv]
      simpa using h2

/-- The length of the list is preserved by the sort. -/
theorem length_sortGuesses (l : List Guess) : (sortGuesses l).length = l.length :=
  (sortGuesses_perm l).length_eq

/-- Matching one oracle result never reorders the snapshot: the
`(groupId, word)` sequence is untouched. -/
theorem applyResult_map_key (gs : List Guess) (r : OracleResult) :
    (applyResult gs r).map (fun g => (g.groupId, g.word))
      = gs.map (fun g => (g.groupId, g.word)) := by
  induction gs with
  | nil => rfl
  | cons g t ih =>
    by_cases hm : lower g.word = lower r.word
    · simp [applyResult, hm]
    · simp [applyResult, hm, ih]

/-- Matching the whole response never reorders the snapshot. -/
theorem foldl_applyResult_map_key (results : List OracleResult) (gs : List Guess) :
    (results.foldl applyResult gs).map (fun g => (g.groupId, g.word))
      = gs.map (fun g => (g.groupId, g.word)) := by
  induction results generalizing gs with
  | nil => rfl
  | cons r rest ih => rw [List.foldl_cons, ih, applyResult_map_key]

/-- Matching one oracle result preserves the length. -/
theorem length_applyResult (gs : List Guess) (r : OracleResult) :
    (applyResult gs r).length = gs.length := by
  have := applyResult_map_key gs r
  have h1 := congrArg List.length this
  simpa using h1

/-- Matching the whole response preserves the length. -/
theorem length_foldl_applyResult (results : List OracleResult) (gs : List Guess) :
    (results.foldl applyResult gs).length = gs.length := by
  have := foldl_applyResult_map_key results gs
  have h1 := congrArg List.length this
  simpa using h1

/-- A result whose word matches no guess (case-insensitively) changes
nothing. -/
theorem applyResult_no_match (gs : List Guess) (r : OracleResult)
    (h : ∀ g ∈ gs, lower g.word ≠ lower r.word) :
    applyResult gs r = gs := by
  induction gs with
  | nil => rfl
  | cons g t ih =>
    have hg := h g (by simp)
    simp only [applyResult, if_neg hg]
    rw [ih (fun x hx => h x (by simp [hx]))]

/-- A result scores exactly the FIRST guess whose word matches
case-insensitively. -/
theorem applyResult_first_match (l1 : List Guess) (g : Guess) (l2 : List Guess)
    (r : OracleResult) (h1 : ∀ g' ∈ l1, lower g'.word ≠ lower r.word)
    (hg : lower g.word = lower r.word) :
    applyResult (l1 ++ g :: l2) r = l1 ++ { g with score := some r.score } :: l2 := by
  induction l1 with
  | nil => simp [applyResult, hg]
  | cons a t ih =>
    have ha := h1 a (by simp)
    have ih' := ih (fun x hx => h1 x (by simp [hx]))
    simp only [List.cons_append, applyResult, if_neg ha]
    exact congrArg (List.cons a) ih'

/-- An element that does not match the result keeps its position and value. -/
theorem applyResult_get?_of_ne (gs : List Guess) (r : OracleResult) (i : Nat) (g : Guess)
    (hi : gs.get? i = some g) (hne : lower g.word ≠ lower r.word) :
    (applyResult gs r).get? i = some g := by
  induction gs generalizing i with
  | nil => simp at hi
  | cons a t ih =>
    cases i with
    | zero =>
      simp only [List.get?] at hi
      obtain rfl : a = g := by simpa using hi
      simp [applyResult, hne]
    | succ j =>
      simp only [List.get?] at hi
      by_cases hm : lower a.word = lower r.word
      · simp only [applyResult, if_pos hm, List.get?]
        exact hi
      · simp only [applyResult, if_neg hm, List.get?]
        exact ih j hi

/-- A guess whose word appears nowhere in the oracle response
(case-insensitively) survives the whole matching pass untouched: its `score`
stays absent. -/
theorem foldl_applyResult_get?_absent (results : List OracleResult) (gs : List Guess)
    (i : Nat) (g : Guess) (hi : gs.get? i = some g)
    (habs : ∀ res ∈ results, lower res.word ≠ lower g.word) :
    (results.foldl applyResult gs).get? i = some g := by
  induction results generalizing gs with
  | nil => simpa using hi
  | cons r rest ih =>
    rw [List.foldl_cons]
    refine ih (applyResult gs r) ?_ (fun x hx => habs x (by simp [hx]))
    exact applyResult_get?_of_ne gs r i g hi
      (fun hc => habs r (by simp) hc.symm)

/-! ## C5 — sort order and tie-breaking (counterexample and amendment) -/

/-- The state after Bia submits "Mar" FIRST and Ana submits "Sol" second;
Ana's submission completes the roster, so it triggers evaluation and the
snapshot is parked in `pendingEval`. -/
def exC5Pending : ServerState :=
  (handleSubmitGuess (handleSubmitGuess exBase "b" "Mar").state "a" "Sol").state

/-- C5 counterexample: Bia submitted first and both words scored 50, yet Ana
— who joined the roster first but submitted LAST — wins the tie and takes
the +5 bonus: the snapshot (and hence the stable-sort tie-break) follows
roster order, not submission order. -/
theorem c5_counterexample :
    exC5Pending.pendingEval = some [⟨"a", "Sol", none⟩, ⟨"b", "Mar", none⟩]
    ∧ (evaluateRoundResume exC5Pending
        (Except.ok [⟨"Sol", 50⟩, ⟨"Mar", 50⟩]) 0).1.players.map (fun p => (p.id, p.score))
      = [("a", 5), ("b", 0)] := ⟨rfl, rfl⟩

/-- C5 (amended): the evaluator sorts the matched snapshot descending by
`score || 0` with a stable sort, so ties are broken by SNAPSHOT order — which
is roster (join) order, not submission order, because the snapshot is drawn
from `Object.values(players)`; the matching pass never reorders it; and the
round winner (the `+5` recipient, see C6) is the first element of the sorted
order. -/
theorem c5_sort_stable (gs : List Guess) (results : List OracleResult) :
    SortedDesc (sortGuesses (results.foldl applyResult gs))
    ∧ (∀ v : Int,
        (sortGuesses (results.foldl applyResult gs)).filter (fun h => scoreVal h == v)
          = (results.foldl applyResult gs).filter (fun h => scoreVal h == v))
    ∧ (results.foldl applyResult gs).map (fun g => (g.groupId, g.word))
        = gs.map (fun g => (g.groupId, g.word))
    ∧ winnerOfTheRound gs results = (sortGuesses (results.foldl applyResult gs)).head? :=
  ⟨sortedDesc_sortGuesses _, fun v => sortGuesses_filter v _,
    foldl_applyResult_map_key results gs, rfl⟩

/-! ## C9 — oracle interface (counterexample and amendment) -/

/-- C9 counterexample: with two players both submitting "Carro", the request
CANDIDATE list contains the word twice — the code does not deduplicate, so
the "list of distinct candidate words" part of the claim is false. -/
theorem c9_counterexample :
    (evaluateRound exDup).call = some ⟨"Futuro", ["Carro", "Carro"]⟩
    ∧ ¬ (["Carro", "Carro"] : List String).Nodup := ⟨rfl, by decide⟩

/-- C9 (amended): the oracle request carries the chain's last word as target
and the submitted words in roster order (duplicates included, NOT
deduplicated); the evaluator issues at most one request per round (none when
blocked by the guard or when nobody submitted); returned words are matched to
submissions case-insensitively, scoring only the first match; and a
submission absent from the response keeps `score` unset, which counts as 0
everywhere (never an error). -/
theorem c9_oracle_interface :
    (∀ s : ServerState, s.game.isEvaluating = false → (guessesOf s.players).length ≠ 0 →
      (evaluateRound s).call
        = some ⟨lastTermInChain s.game, (guessesOf s.players).map (fun g => g.word)⟩)
    ∧ (∀ s : ServerState, s.game.isEvaluating = true → (evaluateRound s).call = none)
    ∧ (∀ s : ServerState, (guessesOf s.players).length = 0 → (evaluateRound s).call = none)
    ∧ (∀ (gs : List Guess) (r : OracleResult),
        (∀ g ∈ gs, lower g.word ≠ lower r.word) → applyResult gs r = gs)
    ∧ (∀ (l1 : List Guess) (g : Guess) (l2 : List Guess) (r : OracleResult),
        (∀ g' ∈ l1, lower g'.word ≠ lower r.word) → lower g.word = lower r.word →
        applyResult (l1 ++ g :: l2) r = l1 ++ { g with score := some r.score } :: l2)
    ∧ (∀ (results : List OracleResult) (gs : List Guess) (i : Nat) (g : Guess),
        gs.get? i = some g → (∀ res ∈ results, lower res.word ≠ lower g.word) →
        (results.foldl applyResult gs).get? i = some g)
    ∧ (∀ g : Guess, g.score = none → thresholdPoints g = 0 ∧ scoreVal g = 0) := by
  refine ⟨?_, ?_, ?_, applyResult_no_match, applyResult_first_match,
    foldl_applyResult_get?_absent, ?_⟩
  · intro s hEv hne
    simp [evaluateRound, hEv, hne, lastTermInChain]
  · intro s hEv
    simp [evaluateRound_blocked s hEv]
  · intro s hz
    by_cases hEv : s.game.isEvaluating = true
    · simp [evaluateRound_blocked s hEv]
    · have hEv' : s.game.isEvaluating = false := by
        cases h : s.game.isEvaluating
        · rfl
        · exact absurd h hEv
      simp [evaluateRound, hEv', hz]
  · intro g hg
    simp [thresholdPoints, scoreVal, hg]

/-- Witness for `c9_oracle_interface`: the request-shape conjunct applied at
the concrete duplicate-word state `exDup`. -/
theorem c9_oracle_interface_witness :
    exDup.game.isEvaluating = false
    ∧ (guessesOf exDup.players).length ≠ 0
    ∧ (evaluateRound exDup).call
        = some ⟨lastTermInChain exDup.game, (guessesOf exDup.players).map (fun g => g.word)⟩ :=
  ⟨rfl, by decide, c9_oracle_interface.1 exDup rfl (by decide)⟩

/-! ## C1 — single-flight evaluation -/

@[simp]
theorem countRoundResults_nil : countRoundResults [] = 0 := rfl

@[simp]
theorem countRoundResults_cons (e : Event) (evs : List Event) :
    countRoundResults (e :: evs)
      = (if isRoundResult e = true then 1 else 0) + countRoundResults evs := by
  cases e <;> simp [countRoundResults, isRoundResult, List.filter_cons]
  all_goals omega

@[simp]
theorem countRoundResults_append (a b : List Event) :
    countRoundResults (a ++ b) = countRoundResults a + countRoundResults b := by
  simp [countRoundResults, List.filter_append]

/-- Opening the evaluation on a state with at least one submission: the
flags flip, the timer is cancelled, the snapshot is parked in `pendingEval`
and the oracle request is issued. -/
theorem evaluateRound_pending (s : ServerState) (hEv : s.game.isEvaluating = false)
    (hne : (guessesOf s.players).length ≠ 0) :
    evaluateRound s =
      ⟨{ s with
          game := { s.game with isEvaluating := true, isRoundActive := false }
          timerActive := false
          pendingEval := some (guessesOf s.players) },
        [Event.gameStateEv],
        some ⟨lastTermInChain s.game, (guessesOf s.players).map (fun g => g.word)⟩⟩ := by
  simp [evaluateRound, hEv, hne, lastTermInChain]

/-- With no submissions, the evaluation completes synchronously: one
round-result notice, no chain append, no oracle call. -/
theorem evaluateRound_empty (s : ServerState) (hEv : s.game.isEvaluating = false)
    (hz : (guessesOf s.players).length = 0) :
    countRoundResults (evaluateRound s).events = 1
    ∧ (evaluateRound s).state.game.chain = s.game.chain
    ∧ (evaluateRound s).call = none := by
  simp only [evaluateRound, hEv, Bool.false_eq_true, if_false]
  refine ⟨?_, ?_, ?_⟩
  · simp [hz, countRoundResults_startNextTurn, isRoundResult]
  · simp [hz, chain_startNextTurn]
  · simp [hz]

/-- A resumed evaluation always ends in `startNextTurn`, preceded by exactly
one round-result broadcast. -/
theorem resume_events_shape (s : ServerState) (gs : List Guess)
    (o : Except Unit (List OracleResult)) (rand : Nat) (hp : s.pendingEval = some gs) :
    ∃ (m : String) (t : ServerState),
      (evaluateRoundResume s o rand).2 = Event.roundResult m :: (startNextTurn t).2 := by
  cases o with
  | error e =>
    exact ⟨errMsg, { s with pendingEval := none }, by simp [evaluateRoundResume, hp]⟩
  | ok results =>
    simp only [evaluateRoundResume, hp]
    repeat' split
    all_goals exact ⟨_, _, rfl⟩

/-- A resumed evaluation emits exactly one round-result broadcast. -/
theorem countRoundResults_resume (s : ServerState) (gs : List Guess)
    (o : Except Unit (List OracleResult)) (rand : Nat) (hp : s.pendingEval = some gs) :
    countRoundResults (evaluateRoundResume s o rand).2 = 1 := by
  obtain ⟨m, t, hshape⟩ := resume_events_shape s gs o rand hp
  rw [hshape]
  simp [countRoundResults_startNextTurn, isRoundResult]

/-- A resumed evaluation appends at most one node to the chain. -/
theorem resume_chain (s : ServerState) (gs : List Guess)
    (o : Except Unit (List OracleResult)) (rand : Nat) (hp : s.pendingEval = some gs) :
    (evaluateRoundResume s o rand).1.game.chain = s.game.chain
    ∨ ∃ n, (evaluateRoundResume s o rand).1.game.chain = s.game.chain ++ [n] := by
  cases o with
  | error e =>
    left
    simp [evaluateRoundResume, hp, chain_startNextTurn]
  | ok results =>
    simp only [evaluateRoundResume, hp]
    rcases hs : sortGuesses (List.foldl applyResult gs results) with _ | ⟨w, rest⟩ <;>
      simp only [hs]
    · left
      simp [chain_startNextTurn]
    · rcases hf : findPlayer s.players w.groupId with _ | wp <;> simp only [hf]
      · left
        simp [chain_startNextTurn]
      · rcases hl : scoreLoop s.players w.groupId (w :: rest) with ⟨ps1, body, okv⟩
        simp only [hl]
        cases okv
        · left
          simp [chain_startNextTurn]
        · rcases hg : (w :: rest).get? rand with _ | nd <;> simp only [hg]
          · left
            simp [chain_startNextTurn]
          · right
            refine ⟨⟨nd.word, some nd.groupId⟩, ?_⟩
            simp [chain_startNextTurn]

/-- C1 (amended): within one turn, however many times `evaluateRound` is
triggered, exactly one invocation passes the guard; every re-trigger
arriving while `isEvaluating` is true is a complete no-op (same state, no
events, no oracle call); the turn produces exactly ONE round-result
broadcast, and AT MOST one chain append — exactly one only when at least one
player submitted and the oracle call succeeded end to end (a no-submission
or failed round appends nothing, see C2). -/
theorem c1_single_flight (s : ServerState) (o : Except Unit (List OracleResult))
    (rand k : Nat) (hEv : s.game.isEvaluating = false) :
    ((guessesOf s.players).length = 0 →
      countRoundResults (evaluateRound s).events = 1
      ∧ (evaluateRound s).state.game.chain = s.game.chain
      ∧ (evaluateRound s).call = none)
    ∧ ((guessesOf s.players).length ≠ 0 →
      (evaluateRound s).state.game.isEvaluating = true
      ∧ evaluateRoundIter k (evaluateRound s).state = ((evaluateRound s).state, [], [])
      ∧ countRoundResults (evaluateRound s).events = 0
      ∧ countRoundResults
          (evaluateRoundResume (evaluateRound s).state o rand).2 = 1
      ∧ ((evaluateRoundResume (evaluateRound s).state o rand).1.game.chain = s.game.chain
        ∨ ∃ n, (evaluateRoundResume (evaluateRound s).state o rand).1.game.chain
            = s.game.chain ++ [n])) := by
  constructor
  · intro hz
    exact evaluateRound_empty s hEv hz
  · intro hne
    rw [evaluateRound_pending s hEv hne]
    have hpend :
        ({ s with
            game := { s.game with isEvaluating := true, isRoundActive := false }
            timerActive := false
            pendingEval := some (guessesOf s.players) } : ServerState).pendingEval
          = some (guessesOf s.players) := rfl
    refine ⟨rfl, evaluateRoundIter_blocked k _ rfl, by simp [isRoundResult], ?_, ?_⟩
    · exact countRoundResults_resume _ _ o rand hpend
    · exact resume_chain _ _ o rand hpend

/-- Witness for `c1_single_flight`: the submitted-round branch at `exSub`
with a successful oracle response and three racing re-triggers. -/
theorem c1_single_flight_witness :
    exSub.game.isEvaluating = false
    ∧ (guessesOf exSub.players).length ≠ 0
    ∧ ((evaluateRound exSub).state.game.isEvaluating = true
      ∧ evaluateRoundIter 3 (evaluateRound exSub).state
          = ((evaluateRound exSub).state, [], [])
      ∧ countRoundResults (evaluateRound exSub).events = 0
      ∧ countRoundResults
          (evaluateRoundResume (evaluateRound exSub).state
            (Except.ok [⟨"Carro", 80⟩]) 0).2 = 1
      ∧ ((evaluateRoundResume (evaluateRound exSub).state
            (Except.ok [⟨"Carro", 80⟩]) 0).1.game.chain = exSub.game.chain
        ∨ ∃ n, (evaluateRoundResume (evaluateRound exSub).state
            (Except.ok [⟨"Carro", 80⟩]) 0).1.game.chain = exSub.game.chain ++ [n])) :=
  ⟨rfl, by decide,
    (c1_single_flight exSub (Except.ok [⟨"Carro", 80⟩]) 0 3 rfl).2 (by decide)⟩

/-- C1 counterexample: a turn in which nobody submitted before the timer ran
out.  The (single) evaluation trigger produces exactly one round-result
broadcast but ZERO chain appends, refuting "exactly one chain append" for
every turn. -/
theorem c1_counterexample :
    (evaluateRound exBase).state.game.chain.length = exBase.game.chain.length
    ∧ countRoundResults (evaluateRound exBase).events = 1
    ∧ (evaluateRound exBase).state.game.turn = 2 := ⟨rfl, rfl, rfl⟩

/-! ## C2 — oracle failure (counterexample and amended behaviour) -/

/-- C2 counterexample: Ana submitted "Carro", the oracle call throws.  The
claim says the chain is still extended with a submitted word; in the code the
`chain.push` sits inside the `try` block, so the chain is NOT extended (it
still has only the seed), even though the error notice is broadcast and the
turn advances. -/
theorem c2_counterexample :
    (evaluateRoundResume (evaluateRound exSub).state (Except.error ()) 0).1.game.chain
      = [⟨"Futuro", none⟩]
    ∧ (evaluateRoundResume (evaluateRound exSub).state (Except.error ()) 0).1.game.turn = 2
    ∧ countRoundResults (evaluateRoundResume (evaluateRound exSub).state (Except.error ()) 0).2
      = 1 := ⟨rfl, rfl, rfl⟩

/-- C2 (amended): when the oracle call throws, the error is caught at the
evaluator boundary: the first event emitted on resumption is the round-level
error notice, no player's cumulative score changes, the turn still advances
(next turn or game over) — but the chain is NOT extended. -/
theorem c2_oracle_failure (s : ServerState) (gs : List Guess) (rand : Nat)
    (hp : s.pendingEval = some gs) :
    (evaluateRoundResume s (Except.error ()) rand).2.head? = some (Event.roundResult errMsg)
    ∧ (evaluateRoundResume s (Except.error ()) rand).1.game.chain = s.game.chain
    ∧ (evaluateRoundResume s (Except.error ()) rand).1.players.map (fun p => p.score)
        = s.players.map (fun p => p.score)
    ∧ (if MAX_TURNS ≤ s.game.turn
       then (evaluateRoundResume s (Except.error ()) rand).1.game.status = .finished
       else (evaluateRoundResume s (Except.error ()) rand).1.game.turn = s.game.turn + 1
         ∧ (evaluateRoundResume s (Except.error ()) rand).1.game.isRoundActive = true
         ∧ (evaluateRoundResume s (Except.error ()) rand).1.game.isEvaluating = false) := by
  have hadv := startNextTurn_advances { s with pendingEval := none }
  have hch := chain_startNextTurn { s with pendingEval := none }
  have hsc := scores_startNextTurn { s with pendingEval := none }
  simp only [evaluateRoundResume, hp]
  refine ⟨rfl, hch, hsc, ?_⟩
  by_cases hT : MAX_TURNS ≤ s.game.turn
  · rw [if_pos hT] at hadv ⊢
    exact hadv
  · rw [if_neg hT] at hadv ⊢
    exact ⟨hadv.1, hadv.2.1, hadv.2.2.1⟩

/-- Witness for `c2_oracle_failure` at the concrete state `exSub`. -/
theorem c2_oracle_failure_witness :
    (evaluateRound exSub).state.pendingEval = some [⟨"a", "Carro", none⟩]
    ∧ ((evaluateRoundResume (evaluateRound exSub).state (Except.error ()) 0).2.head?
        = some (Event.roundResult errMsg)
      ∧ (evaluateRoundResume (evaluateRound exSub).state (Except.error ()) 0).1.game.chain
        = (evaluateRound exSub).state.game.chain
      ∧ (evaluateRoundResume (evaluateRound exSub).state (Except.error ()) 0).1.players.map
          (fun p => p.score)
        = (evaluateRound exSub).state.players.map (fun p => p.score)
      ∧ (if MAX_TURNS ≤ (evaluateRound exSub).state.game.turn
         then (evaluateRoundResume (evaluateRound exSub).state
            (Except.error ()) 0).1.game.status = .finished
         else (evaluateRoundResume (evaluateRound exSub).state
              (Except.error ()) 0).1.game.turn = (evaluateRound exSub).state.game.turn + 1
           ∧ (evaluateRoundResume (evaluateRound exSub).state
              (Except.error ()) 0).1.game.isRoundActive = true
           ∧ (evaluateRoundResume (evaluateRound exSub).state
              (Except.error ()) 0).1.game.isEvaluating = false)) :=
  ⟨rfl, c2_oracle_failure (evaluateRound exSub).state [⟨"a", "Carro", none⟩] 0 rfl⟩

/-! ## C3 — join guard (counterexample and amended behaviour) -/

/-- C3 counterexample: the session is `finished` and the roster has room, yet
the join is ACCEPTED (a `Player` is created and the roster grows) — the code
only rejects while status is `playing`, not whenever status ≠ `lobby`. -/
theorem c3_counterexample :
    exFinished.game.status = .finished
    ∧ exFinished.players.length < 50
    ∧ (handleConnection exFinished "c" "Caio").1.players
        = [pAna, ⟨"c", "Caio", "#1E88E5", 0, false, none, false⟩]
    ∧ (handleConnection exFinished "c" "Caio").2 = [Event.lobbyStateEv] :=
  ⟨rfl, by decide, rfl, rfl⟩

/-- C3 (amended): a connection (with a non-empty name) is rejected — no
`Player` created, roster unchanged, no event — iff status = `playing` or the
roster already has 50 players; otherwise (including status `finished`) a
`Player` record is created with the next palette color. -/
theorem c3_join_guard (s : ServerState) (id nm : String) (hnm : nm ≠ "") :
    (s.game.status = .playing ∨ 50 ≤ s.players.length → handleConnection s id nm = (s, []))
    ∧ (s.game.status ≠ .playing → s.players.length < 50 →
        findPlayer (handleConnection s id nm).1.players id
          = some ⟨id, nm, colors.getD (s.players.length % colors.length) "", 0, false, none, false⟩
        ∧ (handleConnection s id nm).2 = [Event.lobbyStateEv]) := by
  constructor
  · intro hrej
    simp [handleConnection, hnm, hrej]
  · intro hst hlen
    have hcond : ¬(s.game.status = .playing ∨ 50 ≤ s.players.length) := by
      push_neg
      exact ⟨hst, by omega⟩
    simp only [handleConnection, if_neg hnm, if_neg hcond]
    exact ⟨findPlayer_setPlayer s.players _, trivial⟩

/-- Witness for `c3_join_guard`: at `exFinished` the name "Caio" is nonempty,
the join is accepted, and at `exBase` (status `playing`) it is rejected. -/
theorem c3_join_guard_witness :
    ("Caio" ≠ "")
    ∧ ((exFinished.game.status = .playing ∨ 50 ≤ exFinished.players.length →
        handleConnection exFinished "c" "Caio" = (exFinished, []))
      ∧ (exFinished.game.status ≠ .playing → exFinished.players.length < 50 →
        findPlayer (handleConnection exFinished "c" "Caio").1.players "c"
          = some ⟨"c", "Caio",
              colors.getD (exFinished.players.length % colors.length) "", 0, false, none, false⟩
        ∧ (handleConnection exFinished "c" "Caio").2 = [Event.lobbyStateEv])) :=
  ⟨by decide, c3_join_guard exFinished "c" "Caio" (by decide)⟩

/-! ## C4 — is `finished` terminal? (counterexample and amended behaviour) -/

/-- C4 counterexample: in src/index.js the `startGame` guard is
`status !== 'playing'`, so from a `finished` session the host's `startGame`
IS accepted: the session resets to `playing` at turn 1 with a fresh seed
chain and a new turn timer — `finished` is not terminal in this variant. -/
theorem c4_counterexample :
    exFinishedHost.game.status = .finished
    ∧ (handleStartGame exFinishedHost "a" 0).1.game.status = .playing
    ∧ (handleStartGame exFinishedHost "a" 0).1.timerActive = true
    ∧ (handleStartGame exFinishedHost "a" 0).1.game.chain = [⟨"Futuro", none⟩]
    ∧ (handleStartGame exFinishedHost "a" 0).1.game.turn = 1 := ⟨rfl, rfl, rfl, rfl, rfl⟩

/-- C4 (amended): in the host-gated variant (src/index.js) `startGame` is a
no-op unless the sender is the host and the status is not `playing`; hence
the host CAN restart from `finished` (session reset, new timer).  In the
hostless variant (src/unnamed/part_000) `startGame` is accepted only from
`lobby`, so there `finished` really is terminal: every `startGame` is a
complete no-op. -/
theorem c4_start_guard (s : ServerState) (id : String) (r : Nat) :
    (¬(s.hostId = some id ∧ s.game.status ≠ .playing) → handleStartGame s id r = (s, []))
    ∧ (s.hostId = some id → s.game.status = .finished →
        (handleStartGame s id r).1.game.status = .playing
        ∧ (handleStartGame s id r).1.timerActive = true
        ∧ (handleStartGame s id r).1.game.turn = 1)
    ∧ (s.game.status ≠ .lobby → Variant.handleStartGame s r = (s, [])) := by
  refine ⟨fun h => by simp [handleStartGame, h], fun hh hf => ?_, fun h => by
    simp [Variant.handleStartGame, h]⟩
  have hcond : s.hostId = some id ∧ s.game.status ≠ .playing := ⟨hh, by simp [hf]⟩
  simp [handleStartGame, hcond, resetGame, startTurnTimer]

/-- Witness for `c4_start_guard` at `exFinishedHost` (accepted restart) —
the no-op branches are also instantiated there. -/
theorem c4_start_guard_witness :
    (¬(exFinishedHost.hostId = some "a" ∧ exFinishedHost.game.status ≠ .playing) →
        handleStartGame exFinishedHost "a" 0 = (exFinishedHost, []))
    ∧ (exFinishedHost.hostId = some "a" → exFinishedHost.game.status = .finished →
        (handleStartGame exFinishedHost "a" 0).1.game.status = .playing
        ∧ (handleStartGame exFinishedHost "a" 0).1.timerActive = true
        ∧ (handleStartGame exFinishedHost "a" 0).1.game.turn = 1)
    ∧ (exFinishedHost.game.status ≠ .lobby → Variant.handleStartGame exFinishedHost 0
        = (exFinishedHost, [])) :=
  c4_start_guard exFinishedHost "a" 0

/-! ## C10 — disconnect never triggers evaluation -/

/-- C10: a `disconnect` never touches the game state, the pending evaluation
or the timer, and never triggers evaluation (it emits at most a lobby-roster
update); and after the disconnect the departed identity can no longer appear
in any evaluation snapshot taken later from the roster. -/
theorem c10_disconnect_no_eval (s : ServerState) (id : String) :
    (handleDisconnect s id).1.game = s.game
    ∧ (handleDisconnect s id).1.pendingEval = s.pendingEval
    ∧ (handleDisconnect s id).1.timerActive = s.timerActive
    ∧ (∀ e ∈ (handleDisconnect s id).2, e = Event.lobbyStateEv)
    ∧ (∀ g ∈ guessesOf (handleDisconnect s id).1.players, g.groupId ≠ id) := by
  unfold handleDisconnect
  split
  · refine ⟨rfl, rfl, rfl, by simp, ?_⟩
    intro g hg
    simp only [guessesOf, List.mem_map, List.mem_filter] at hg
    obtain ⟨p, hp, rfl⟩ := hg
    simpa using hp.1.2
  · rename_i h
    refine ⟨rfl, rfl, rfl, by simp, ?_⟩
    intro g hg
    simp only [guessesOf, List.mem_map, List.mem_filter] at hg
    obtain ⟨p, ⟨hp, _⟩, rfl⟩ := hg
    have hnone : s.players.find? (fun q => q.id == id) = none := by
      cases hfind : s.players.find? (fun q => q.id == id) with
      | none => rfl
      | some q => simp [findPlayer, hfind] at h
    have := List.find?_eq_none.mp hnone p hp
    simpa using this

/-! ## C6 — per-round point accounting -/

/-- Roster transformations that keep `id` fields commute with lookup. -/
theorem findPlayer_map (t : Player → Player) (hid : ∀ q, (t q).id = q.id)
    (ps : List Player) (x : String) :
    findPlayer (ps.map t) x = (findPlayer ps x).map t := by
  induction ps with
  | nil => rfl
  | cons q l ih =>
    simp only [findPlayer, List.map_cons, List.find?, hid q]
    cases hq : (q.id == x) with
    | true => rfl
    | false => exact ih

/-- `startNextTurn` changes no player's identity or cumulative score. -/
theorem idScores_startNextTurn (s : ServerState) :
    (startNextTurn s).1.players.map (fun p => (p.id, p.score))
      = s.players.map (fun p => (p.id, p.score)) := by
  unfold startNextTurn
  split <;> simp [startTurnTimer]

/-- When at most one element satisfies the predicate, `find?` does not
depend on the order of the list. -/
theorem find?_eq_of_perm {α : Type} (l l' : List α) (hperm : List.Perm l l')
    (p : α → Bool)
    (huniq : ∀ x ∈ l, ∀ y ∈ l, p x = true → p y = true → x = y) :
    l.find? p = l'.find? p := by
  cases hx : l.find? p with
  | none =>
    cases hy : l'.find? p with
    | none => rfl
    | some y =>
      have hp := List.find?_some hy
      have hmem : y ∈ l := hperm.mem_iff.mpr (List.mem_of_find?_eq_some hy)
      exact absurd hp (List.find?_eq_none.mp hx y hmem)
  | some x =>
    have hxp := List.find?_some hx
    have hxm := List.mem_of_find?_eq_some hx
    cases hy : l'.find? p with
    | none =>
      exact absurd hxp (List.find?_eq_none.mp hy x (hperm.mem_iff.mp hxm))
    | some y =>
      have hyp := List.find?_some hy
      have hym : y ∈ l := hperm.mem_iff.mpr (List.mem_of_find?_eq_some hy)
      rw [huniq x hxm y hym hxp hyp]

/-- Specification of the scoring loop: when every guess's player is present
and guess ids are distinct, the loop completes and adds to each matched
player exactly the threshold points plus the winner bonus. -/
theorem scoreLoop_spec (sorted : List Guess) (ps : List Player) (wid : String)
    (hpres : ∀ g ∈ sorted, (findPlayer ps g.groupId).isSome = true)
    (hnd : (sorted.map (fun g => g.groupId)).Nodup) :
    (scoreLoop ps wid sorted).1
      = ps.map (fun q =>
          match sorted.find? (fun g => g.groupId == q.id) with
          | some g => { q with score := q.score
              + (thresholdPoints g + if g.groupId = wid then 5 else 0) }
          | none => q)
    ∧ (scoreLoop ps wid sorted).2.2 = true := by
  induction sorted generalizing ps with
  | nil =>
    constructor
    · show ps = _
      simp [List.find?]
    · rfl
  | cons g rest ih =>
    obtain ⟨p, hfp⟩ : ∃ p, findPlayer ps g.groupId = some p := by
      have := hpres g (by simp)
      cases h : findPlayer ps g.groupId with
      | none => rw [h] at this; simp at this
      | some p => exact ⟨p, rfl⟩
    have hid : ∀ q : Player,
        ((fun q => if q.id = g.groupId then
          { q with score := q.score
              + (thresholdPoints g + if g.groupId = wid then 5 else 0) } else q) q).id
          = q.id := by
      intro q
      by_cases hq : q.id = g.groupId <;> simp [hq]
    have hpres' : ∀ x ∈ rest,
        (findPlayer (ps.map (fun q => if q.id = g.groupId then
          { q with score := q.score
              + (thresholdPoints g + if g.groupId = wid then 5 else 0) } else q)) x.groupId).isSome
          = true := by
      intro x hx
      rw [findPlayer_map _ hid]
      have := hpres x (by simp [hx])
      cases h : findPlayer ps x.groupId with
      | none => rw [h] at this; simp at this
      | some q => simp [h]
    obtain ⟨hgnot, hnd'⟩ : (∀ x ∈ rest, ¬ x.groupId = g.groupId)
        ∧ (rest.map (fun g => g.groupId)).Nodup := by simpa using hnd
    obtain ⟨ih1, ih2⟩ := ih (ps.map (fun q => if q.id = g.groupId then
      { q with score := q.score
          + (thresholdPoints g + if g.groupId = wid then 5 else 0) } else q)) hpres' hnd'
    have hstep1 : (scoreLoop ps wid (g :: rest)).1
        = (scoreLoop (ps.map (fun q => if q.id = g.groupId then
            { q with score := q.score
                + (thresholdPoints g + if g.groupId = wid then 5 else 0) } else q))
            wid rest).1 := by
      simp [scoreLoop, hfp]
    have hstep2 : (scoreLoop ps wid (g :: rest)).2.2
        = (scoreLoop (ps.map (fun q => if q.id = g.groupId then
            { q with score := q.score
                + (thresholdPoints g + if g.groupId = wid then 5 else 0) } else q))
            wid rest).2.2 := by
      simp [scoreLoop, hfp]
    refine ⟨?_, hstep2.trans ih2⟩
    rw [hstep1, ih1, List.map_map]
    apply List.map_congr_left
    intro q _
    by_cases hq : q.id = g.groupId
    · have hrest : rest.find? (fun x => x.groupId == q.id) = none := by
        apply List.find?_eq_none.mpr
        intro x hx hc
        have hxq : x.groupId = q.id := by simpa using hc
        exact hgnot x hx (hxq.trans hq)
      have hgq : (g.groupId == q.id) = true := by simp [hq]
      simp [Function.comp, if_pos hq, List.find?, hgq, hrest]
    · have hgq : (g.groupId == q.id) = false := by
        simp
        exact fun hc => hq hc.symm
      simp [Function.comp, if_neg hq, List.find?, hgq]

/-- Snapshot guess ids are the submitted players' ids, in roster order. -/
theorem guessesOf_map_groupId (ps : List Player) :
    (guessesOf ps).map (fun g => g.groupId)
      = (ps.filter (fun p => p.submitted)).map (fun p => p.id) := by
  simp [guessesOf, List.map_map, Function.comp]

/-- C6: in a successfully evaluated round, each player's cumulative score
increases by exactly the points of their matched guess — 2 if its score is
≥ 57 plus 5 if they are the round winner — and players without a guess in
the snapshot (the non-submitters) gain exactly 0; every submitted player has
exactly one matched guess, carrying their submitted word. -/
theorem c6_points (s : ServerState) (gs : List Guess) (results : List OracleResult)
    (rand : Nat) (hp : s.pendingEval = some gs) (hgs : gs = guessesOf s.players)
    (hnd : (s.players.map (fun p => p.id)).Nodup) (hne : gs ≠ []) :
    ∃ w, winnerOfTheRound gs results = some w
    ∧ (evaluateRoundResume s (Except.ok results) rand).1.players.map (fun p => (p.id, p.score))
      = s.players.map (fun p => (p.id, p.score
          + match (results.foldl applyResult gs).find? (fun g => g.groupId == p.id) with
            | some g => thresholdPoints g + (if g.groupId = w.groupId then 5 else 0)
            | none => 0))
    ∧ (∀ p ∈ s.players, p.submitted = false →
        (results.foldl applyResult gs).find? (fun g => g.groupId == p.id) = none)
    ∧ (∀ p ∈ s.players, p.submitted = true →
        ∃ g, (results.foldl applyResult gs).find? (fun g2 => g2.groupId == p.id) = some g
          ∧ g.word = p.lastGuess.getD "") := by
  have hpairs : (results.foldl applyResult gs).map (fun g => (g.groupId, g.word))
      = gs.map (fun g => (g.groupId, g.word)) := foldl_applyResult_map_key results gs
  have hids : (results.foldl applyResult gs).map (fun g => g.groupId)
      = gs.map (fun g => g.groupId) := by
    have h1 := congrArg (List.map Prod.fst) hpairs
    simpa [List.map_map, Function.comp] using h1
  have hgsids : gs.map (fun g => g.groupId)
      = (s.players.filter (fun p => p.submitted)).map (fun p => p.id) := by
    rw [hgs]
    exact guessesOf_map_groupId s.players
  have hsubnd : ((s.players.filter (fun p => p.submitted)).map (fun p => p.id)).Nodup :=
    ((List.filter_sublist s.players).map (fun p => p.id)).nodup hnd
  have hscorednd : ((results.foldl applyResult gs).map (fun g => g.groupId)).Nodup := by
    rw [hids, hgsids]
    exact hsubnd
  have hsortperm := sortGuesses_perm (results.foldl applyResult gs)
  have hsortnd : ((sortGuesses (results.foldl applyResult gs)).map (fun g => g.groupId)).Nodup := by
    rw [((hsortperm.map (fun g => g.groupId)).nodup_iff)]
    exact hscorednd
  have hpresent : ∀ g ∈ sortGuesses (results.foldl applyResult gs),
      (findPlayer s.players g.groupId).isSome = true := by
    intro g hg
    have hg2 : g ∈ results.foldl applyResult gs := hsortperm.mem_iff.mp hg
    have hg3 : g.groupId ∈ (results.foldl applyResult gs).map (fun g => g.groupId) :=
      List.mem_map_of_mem _ hg2
    rw [hids, hgsids] at hg3
    obtain ⟨q, hqmem, hqid⟩ := List.mem_map.mp hg3
    have hqps : q ∈ s.players := List.mem_of_mem_filter hqmem
    apply List.find?_isSome.mpr
    exact ⟨q, hqps, by simp [hqid]⟩
  have hlen : (sortGuesses (results.foldl applyResult gs)).length = gs.length := by
    rw [length_sortGuesses, length_foldl_applyResult]
  obtain ⟨w, rest', hsort⟩ : ∃ w rest',
      sortGuesses (results.foldl applyResult gs) = w :: rest' := by
    cases hs : sortGuesses (results.foldl applyResult gs) with
    | nil =>
      rw [hs] at hlen
      exact absurd (List.length_eq_zero.mp hlen.symm) hne
    | cons w r => exact ⟨w, r, rfl⟩
  have huniq : ∀ (x : String) (a : Guess), a ∈ results.foldl applyResult gs →
      ∀ b ∈ results.foldl applyResult gs,
      (a.groupId == x) = true → (b.groupId == x) = true → a = b := by
    intro x a ha b hb hax hbx
    have hax' : a.groupId = x := by simpa using hax
    have hbx' : b.groupId = x := by simpa using hbx
    exact List.inj_on_of_nodup_map hscorednd ha hb (hax'.trans hbx'.symm)
  have hfind_eq : ∀ x : String,
      (sortGuesses (results.foldl applyResult gs)).find? (fun g => g.groupId == x)
        = (results.foldl applyResult gs).find? (fun g => g.groupId == x) := by
    intro x
    apply find?_eq_of_perm _ _ hsortperm
    intro a ha b hb hax hbx
    exact huniq x a (hsortperm.mem_iff.mp ha) b (hsortperm.mem_iff.mp hb) hax hbx
  refine ⟨w, ?_, ?_, ?_, ?_⟩
  · unfold winnerOfTheRound
    rw [hsort]
    rfl
  · -- run the evaluator along the success path
    obtain ⟨wp, hfw⟩ : ∃ wp, findPlayer s.players w.groupId = some wp := by
      have := hpresent w (by rw [hsort]; simp)
      cases h : findPlayer s.players w.groupId with
      | none => rw [h] at this; simp at this
      | some p => exact ⟨p, rfl⟩
    have hspec := scoreLoop_spec (w :: rest') s.players w.groupId
      (by rw [← hsort]; exact hpresent) (by rw [← hsort]; exact hsortnd)
    simp only [evaluateRoundResume, hp, hsort, hfw]
    rcases hsl : scoreLoop s.players w.groupId (w :: rest') with ⟨ps1, body, okv⟩
    rw [hsl] at hspec
    obtain ⟨hspec1, hspec2⟩ := hspec
    simp only at hspec1 hspec2
    subst hspec2
    simp only [hsl, if_true]
    have hps1 : ∀ t : ServerState, t.players = ps1 →
        (startNextTurn t).1.players.map (fun p => (p.id, p.score))
          = s.players.map (fun p => (p.id, p.score
              + match (results.foldl applyResult gs).find? (fun g => g.groupId == p.id) with
                | some g => thresholdPoints g + (if g.groupId = w.groupId then 5 else 0)
                | none => 0)) := by
      intro t ht
      rw [idScores_startNextTurn, ht, hspec1, List.map_map]
      apply List.map_congr_left
      intro q _
      have hfq := hfind_eq q.id
      rw [hsort] at hfq
      simp only [Function.comp, hfq]
      cases hf : (results.foldl applyResult gs).find? (fun g => g.groupId == q.id) with
      | none => simp [hf]
      | some g => simp [hf]
    rcases hget : (w :: rest').get? rand with _ | nd
    · simp only [hget]
      exact hps1 _ rfl
    · simp only [hget]
      exact hps1 _ rfl
  · intro p hpmem hpsub
    apply List.find?_eq_none.mpr
    intro g hgmem hc
    have hgid : g.groupId = p.id := by simpa using hc
    have hg3 : g.groupId ∈ (results.foldl applyResult gs).map (fun g => g.groupId) :=
      List.mem_map_of_mem _ hgmem
    rw [hids, hgsids] at hg3
    obtain ⟨q, hqmem, hqid⟩ := List.mem_map.mp hg3
    have hqps : q ∈ s.players := List.mem_of_mem_filter hqmem
    have hqsub : q.submitted = true := by
      have := List.mem_filter.mp hqmem
      simpa using this.2
    have : q = p := List.inj_on_of_nodup_map hnd hqps hpmem (hqid.trans hgid)
    rw [this] at hqsub
    rw [hqsub] at hpsub
    exact absurd hpsub (by simp)
  · intro p hpmem hpsub
    have hpfil : p ∈ s.players.filter (fun p => p.submitted) :=
      List.mem_filter.mpr ⟨hpmem, by simp [hpsub]⟩
    have hpair : (p.id, p.lastGuess.getD "") ∈ gs.map (fun g => (g.groupId, g.word)) := by
      rw [hgs]
      simp only [guessesOf, List.map_map]
      refine List.mem_map.mpr ⟨p, hpfil, ?_⟩
      simp [Function.comp]
    rw [← hpairs] at hpair
    obtain ⟨g0, hg0mem, hg0pair⟩ := List.mem_map.mp hpair
    have hg0id : g0.groupId = p.id := congrArg Prod.fst hg0pair
    have hg0word : g0.word = p.lastGuess.getD "" := congrArg Prod.snd hg0pair
    have hsome : ((results.foldl applyResult gs).find? (fun g2 => g2.groupId == p.id)).isSome
        = true := List.find?_isSome.mpr ⟨g0, hg0mem, by simp [hg0id]⟩
    cases hfind : (results.foldl applyResult gs).find? (fun g2 => g2.groupId == p.id) with
    | none => rw [hfind] at hsome; simp at hsome
    | some g1 =>
      refine ⟨g1, rfl, ?_⟩
      have hg1mem := List.mem_of_find?_eq_some hfind
      have hg1p := List.find?_some hfind
      have : g1 = g0 := huniq p.id g1 hg1mem g0 hg0mem hg1p (by simp [hg0id])
      rw [this, hg0word]

/-- Witness for `c6_points` at the concrete pending round `exC5Pending` with
oracle scores Sol ↦ 80, Mar ↦ 10: Ana (winner, 80 ≥ 57) gains 2 + 5, Bia
gains 0. -/
theorem c6_points_witness :
    exC5Pending.pendingEval = some [⟨"a", "Sol", none⟩, ⟨"b", "Mar", none⟩]
    ∧ ([⟨"a", "Sol", none⟩, ⟨"b", "Mar", none⟩] : List Guess)
        = guessesOf exC5Pending.players
    ∧ (exC5Pending.players.map (fun p => p.id)).Nodup
    ∧ ([⟨"a", "Sol", none⟩, ⟨"b", "Mar", none⟩] : List Guess) ≠ []
    ∧ (∃ w, winnerOfTheRound [⟨"a", "Sol", none⟩, ⟨"b", "Mar", none⟩]
          [⟨"Sol", 80⟩, ⟨"Mar", 10⟩] = some w
      ∧ (evaluateRoundResume exC5Pending
          (Except.ok [⟨"Sol", 80⟩, ⟨"Mar", 10⟩]) 0).1.players.map (fun p => (p.id, p.score))
        = exC5Pending.players.map (fun p => (p.id, p.score
            + match (List.foldl applyResult [⟨"a", "Sol", none⟩, ⟨"b", "Mar", none⟩]
                [⟨"Sol", 80⟩, ⟨"Mar", 10⟩]).find? (fun g => g.groupId == p.id) with
              | some g => thresholdPoints g + (if g.groupId = w.groupId then 5 else 0)
              | none => 0))
      ∧ (∀ p ∈ exC5Pending.players, p.submitted = false →
          (List.foldl applyResult [⟨"a", "Sol", none⟩, ⟨"b", "Mar", none⟩]
            [⟨"Sol", 80⟩, ⟨"Mar", 10⟩]).find? (fun g => g.groupId == p.id) = none)
      ∧ (∀ p ∈ exC5Pending.players, p.submitted = true →
          ∃ g, (List.foldl applyResult [⟨"a", "Sol", none⟩, ⟨"b", "Mar", none⟩]
            [⟨"Sol", 80⟩, ⟨"Mar", 10⟩]).find? (fun g2 => g2.groupId == p.id) = some g
            ∧ g.word = p.lastGuess.getD "")) :=
  ⟨rfl, rfl, by decide, by decide,
    c6_points exC5Pending [⟨"a", "Sol", none⟩, ⟨"b", "Mar", none⟩]
      [⟨"Sol", 80⟩, ⟨"Mar", 10⟩] 0 rfl rfl (by decide) (by decide)⟩

/-- Witness for `c10_disconnect_no_eval` at the concrete state `exSub`. -/
theorem c10_disconnect_no_eval_witness :
    (handleDisconnect exSub "a").1.game = exSub.game
    ∧ (handleDisconnect exSub "a").1.pendingEval = exSub.pendingEval
    ∧ (handleDisconnect exSub "a").1.timerActive = exSub.timerActive
    ∧ (∀ e ∈ (handleDisconnect exSub "a").2, e = Event.lobbyStateEv)
    ∧ (∀ g ∈ guessesOf (handleDisconnect exSub "a").1.players, g.groupId ≠ "a") :=
  c10_disconnect_no_eval exSub "a"

/-! ## C7 — the submission guard on reachable states -/

/-- The reachable server states: everything the event handlers can produce
from the initial globals.  Evaluation is represented by its two halves: the
synchronous prefix runs inside `handleSubmitGuess`/`tick`, and
`evaluateRoundResume` (the oracle response arriving) is a separate step. -/
inductive Reachable : ServerState → Prop where
  | init : Reachable initialState
  | connect (s : ServerState) (id nm : String) :
      Reachable s → Reachable (handleConnection s id nm).1
  | disconnect (s : ServerState) (id : String) :
      Reachable s → Reachable (handleDisconnect s id).1
  | start (s : ServerState) (id : String) (r : Nat) :
      Reachable s → Reachable (handleStartGame s id r).1
  | submit (s : ServerState) (id w : String) :
      Reachable s → Reachable (handleSubmitGuess s id w).state
  | timerTick (s : ServerState) :
      Reachable s → Reachable (tick s).state
  | resume (s : ServerState) (o : Except Unit (List OracleResult)) (rand : Nat) :
      Reachable s → Reachable (evaluateRoundResume s o rand).1

/-- The flag invariant of the session state machine (spec §3: `isRoundActive`
and `isEvaluating` are never both true): an active round implies status
`playing` with no evaluation in flight; a live timer likewise; a parked
evaluation snapshot implies `playing` mid-evaluation with the round closed
and the timer cancelled. -/
def Inv (s : ServerState) : Prop :=
  (s.game.isRoundActive = true → s.game.status = .playing ∧ s.game.isEvaluating = false)
  ∧ (s.timerActive = true → s.game.status = .playing ∧ s.game.isEvaluating = false)
  ∧ (∀ gs, s.pendingEval = some gs →
      s.game.status = .playing ∧ s.game.isEvaluating = true
      ∧ s.game.isRoundActive = false ∧ s.timerActive = false)

theorem inv_startNextTurn (s : ServerState) (hst : s.game.status = .playing)
    (hra : s.game.isRoundActive = false) (ht : s.timerActive = false)
    (hpe : s.pendingEval = none) : Inv (startNextTurn s).1 := by
  unfold startNextTurn startTurnTimer Inv
  split <;> simp_all

theorem inv_evaluateRound (s : ServerState) (hinv : Inv s)
    (hst : s.game.status = .playing) (hpe : s.pendingEval = none) :
    Inv (evaluateRound s).state := by
  by_cases hEv : s.game.isEvaluating = true
  · rw [evaluateRound_blocked s hEv]
    exact hinv
  · have hEv' : s.game.isEvaluating = false := by
      cases h : s.game.isEvaluating
      · rfl
      · exact absurd h hEv
    by_cases hz : (guessesOf s.players).length = 0
    · have hrun : (evaluateRound s).state
          = (startNextTurn { s with
              game := { s.game with isEvaluating := true, isRoundActive := false }
              timerActive := false }).1 := by
        simp [evaluateRound, hEv', hz]
      rw [hrun]
      exact inv_startNextTurn _ hst rfl rfl hpe
    · rw [evaluateRound_pending s hEv' hz]
      unfold Inv
      refine ⟨by simp, by simp, ?_⟩
      intro gs h
      simp_all

theorem inv_handleSubmitGuess (s : ServerState) (id w : String) (hinv : Inv s) :
    Inv (handleSubmitGuess s id w).state := by
  obtain ⟨h1, h2, h3⟩ := hinv
  cases hfp : findPlayer s.players id with
  | none =>
    simp only [handleSubmitGuess, hfp]
    exact ⟨h1, h2, h3⟩
  | some p =>
    by_cases hok : s.game.isRoundActive = true ∧ p.submitted = false
    · obtain ⟨hst, hEv⟩ := h1 hok.1
      have hpe : s.pendingEval = none := by
        cases hp : s.pendingEval with
        | none => rfl
        | some gs =>
          have := (h3 gs hp).2.2.1
          rw [hok.1] at this
          exact absurd this (by simp)
      have hinv1 : Inv { s with players := (s.players.map (fun q =>
          if q.id = id then { q with lastGuess := some w, submitted := true } else q)) } :=
        ⟨fun h => h1 h, fun h => h2 h, fun gs h => h3 gs h⟩
      simp only [handleSubmitGuess, hfp, if_pos hok]
      split
      · exact inv_evaluateRound _ hinv1 hst hpe
      · exact hinv1
    · simp only [handleSubmitGuess, hfp, if_neg hok]
      exact ⟨h1, h2, h3⟩

theorem inv_tick (s : ServerState) (hinv : Inv s) : Inv (tick s).state := by
  obtain ⟨h1, h2, h3⟩ := hinv
  by_cases hta : s.timerActive = true
  · obtain ⟨hst, hEv⟩ := h2 hta
    have hpe : s.pendingEval = none := by
      cases hp : s.pendingEval with
      | none => rfl
      | some gs =>
        have := (h3 gs hp).2.1
        rw [hEv] at this
        exact absurd this (by simp)
    by_cases hdec : 0 < s.game.timeLeft
    · by_cases hz : s.game.timeLeft - 1 = 0
      · simp only [tick, hta, hdec, hz, hEv]
        simp only [if_true, if_pos hdec]
        simp [hz, hEv]
        exact inv_evaluateRound _
          ⟨fun h => ⟨(h1 h).1, rfl⟩, fun h => absurd h (by simp),
            fun gs h => absurd (hpe.symm.trans h) (by simp)⟩ hst hpe
      · simp only [tick, hta, hdec, hz, hEv]
        simp [hz]
        exact ⟨fun h => ⟨(h1 h).1, rfl⟩, fun _ => ⟨(h2 hta).1, rfl⟩,
          fun gs h => absurd (hpe.symm.trans h) (by simp)⟩
    · have hz0 : s.game.timeLeft = 0 := by omega
      simp only [tick, hta]
      simp [hz0, hEv]
      exact inv_evaluateRound _
        ⟨fun h => h1 h, fun h => absurd h (by simp),
          fun gs h => absurd (hpe.symm.trans h) (by simp)⟩ hst hpe
  · have hta' : s.timerActive = false := by
      cases h : s.timerActive
      · rfl
      · exact absurd h hta
    simp only [tick, hta', if_pos rfl]
    exact ⟨h1, h2, h3⟩

theorem inv_handleStartGame (s : ServerState) (id : String) (r : Nat) (hinv : Inv s) :
    Inv (handleStartGame s id r).1 := by
  obtain ⟨h1, h2, h3⟩ := hinv
  by_cases hok : s.hostId = some id ∧ s.game.status ≠ .playing
  · have hpe : s.pendingEval = none := by
      cases hp : s.pendingEval with
      | none => rfl
      | some gs => exact absurd (h3 gs hp).1 hok.2
    simp only [handleStartGame, if_pos hok]
    unfold resetGame startTurnTimer Inv
    refine ⟨by simp, by simp, ?_⟩
    intro gs h
    simp only at h
    rw [hpe] at h
    exact absurd h (by simp)
  · simp only [handleStartGame, if_neg hok]
    exact ⟨h1, h2, h3⟩

theorem inv_handleConnection (s : ServerState) (id nm : String) (hinv : Inv s) :
    Inv (handleConnection s id nm).1 := by
  obtain ⟨h1, h2, h3⟩ := hinv
  unfold handleConnection
  split
  · exact ⟨h1, h2, h3⟩
  · split
    · exact ⟨h1, h2, h3⟩
    · exact ⟨h1, h2, h3⟩

theorem inv_handleDisconnect (s : ServerState) (id : String) (hinv : Inv s) :
    Inv (handleDisconnect s id).1 := by
  obtain ⟨h1, h2, h3⟩ := hinv
  unfold handleDisconnect
  split
  · exact ⟨h1, h2, h3⟩
  · exact ⟨h1, h2, h3⟩

theorem inv_resume (s : ServerState) (o : Except Unit (List OracleResult)) (rand : Nat)
    (hinv : Inv s) : Inv (evaluateRoundResume s o rand).1 := by
  obtain ⟨h1, h2, h3⟩ := hinv
  cases hp : s.pendingEval with
  | none =>
    simp only [evaluateRoundResume, hp]
    exact ⟨h1, h2, h3⟩
  | some gs =>
    obtain ⟨hst, hEv, hra, hta⟩ := h3 gs hp
    simp only [evaluateRoundResume, hp]
    cases o with
    | error e => exact inv_startNextTurn _ hst hra hta rfl
    | ok results =>
      rcases hs : sortGuesses (List.foldl applyResult gs results) with _ | ⟨w, rest⟩ <;>
        simp only [hs]
      · exact inv_startNextTurn _ hst hra hta rfl
      · rcases hf : findPlayer s.players w.groupId with _ | wp <;> simp only [hf]
        · exact inv_startNextTurn _ hst hra hta rfl
        · rcases hl : scoreLoop s.players w.groupId (w :: rest) with ⟨ps1, body, okv⟩
          simp only [hl]
          cases okv
          · exact inv_startNextTurn _ hst hra hta rfl
          · rcases hg : (w :: rest).get? rand with _ | nd <;> simp only [hg]
            · exact inv_startNextTurn _ hst hra hta rfl
            · exact inv_startNextTurn _ hst hra hta rfl

/-- Every reachable state satisfies the flag invariant — in particular
`isRoundActive` and `isEvaluating` are never both true. -/
theorem reachable_inv (s : ServerState) (h : Reachable s) : Inv s := by
  induction h with
  | init =>
    refine ⟨by simp [initialState], by simp [initialState], ?_⟩
    intro gs hgs
    simp [initialState] at hgs
  | connect s id nm _ ih => exact inv_handleConnection s id nm ih
  | disconnect s id _ ih => exact inv_handleDisconnect s id ih
  | start s id r _ ih => exact inv_handleStartGame s id r ih
  | submit s id w _ ih => exact inv_handleSubmitGuess s id w ih
  | timerTick s _ ih => exact inv_tick s ih
  | resume s o rand _ ih => exact inv_resume s o rand ih

/-- Opening an evaluation with a non-empty snapshot never touches the
roster. -/
theorem evaluateRound_players_of_ne (s : ServerState)
    (hne : (guessesOf s.players).length ≠ 0) :
    (evaluateRound s).state.players = s.players := by
  by_cases hEv : s.game.isEvaluating = true
  · rw [evaluateRound_blocked s hEv]
  · have hEv' : s.game.isEvaluating = false := by
      cases h : s.game.isEvaluating
      · rfl
      · exact absurd h hEv
    rw [evaluateRound_pending s hEv' hne]

/-- A concrete reachable mid-game state: the host "a" joined and started the
game. -/
def exReach : ServerState :=
  (handleStartGame (handleConnection initialState "a" "LIDER").1 "a" 0).1

/-- C7: on every reachable state, a `submitGuess` is recorded — `lastGuess`
set to the submitted word and `submitted` flipped — iff status = `playing`
∧ `isRoundActive` ∧ ¬`isEvaluating` ∧ the identity is in the roster ∧ the
player has not already submitted; otherwise the event is a complete no-op
(same state, no events, no oracle call); in particular a duplicate
submission never overwrites the recorded `lastGuess`. -/
theorem c7_submit_guard (s : ServerState) (id w : String) (hreach : Reachable s) :
    ((s.game.status = .playing ∧ s.game.isRoundActive = true ∧ s.game.isEvaluating = false
      ∧ (∃ p, findPlayer s.players id = some p ∧ p.submitted = false)) →
      ∃ p, findPlayer s.players id = some p ∧ p.submitted = false
        ∧ findPlayer (handleSubmitGuess s id w).state.players id
            = some { p with lastGuess := some w, submitted := true })
    ∧ (¬(s.game.status = .playing ∧ s.game.isRoundActive = true ∧ s.game.isEvaluating = false
      ∧ (∃ p, findPlayer s.players id = some p ∧ p.submitted = false)) →
      handleSubmitGuess s id w = ⟨s, [], none⟩)
    ∧ (∀ p, findPlayer s.players id = some p → p.submitted = true →
      handleSubmitGuess s id w = ⟨s, [], none⟩) := by
  obtain ⟨hinv1, hinv2, hinv3⟩ := reachable_inv s hreach
  refine ⟨?_, ?_, ?_⟩
  · rintro ⟨hst, hra, hev, p, hfp, hsub⟩
    refine ⟨p, hfp, hsub, ?_⟩
    have hpid : p.id = id := by
      have := List.find?_some hfp
      simpa using this
    have hmark : findPlayer (s.players.map (fun q =>
        if q.id = id then { q with lastGuess := some w, submitted := true } else q)) id
        = some { p with lastGuess := some w, submitted := true } := by
      rw [findPlayer_map (fun q =>
        if q.id = id then { q with lastGuess := some w, submitted := true } else q)
        (fun q => by by_cases hq : q.id = id <;> simp [hq]) s.players id, hfp]
      simp [hpid]
    simp only [handleSubmitGuess, hfp,
      if_pos (show s.game.isRoundActive = true ∧ p.submitted = false from ⟨hra, hsub⟩)]
    split
    · -- all players submitted: evaluation starts, the roster is untouched
      have hne : (guessesOf (s.players.map (fun q =>
          if q.id = id then { q with lastGuess := some w, submitted := true } else q))).length
          ≠ 0 := by
        have hpm : p ∈ s.players := List.mem_of_find?_eq_some hfp
        have hmem : ({ p with lastGuess := some w, submitted := true } : Player)
            ∈ s.players.map (fun q =>
              if q.id = id then { q with lastGuess := some w, submitted := true } else q) := by
          refine List.mem_map.mpr ⟨p, hpm, ?_⟩
          simp [hpid]
        simp only [guessesOf, List.length_map]
        intro hlen0
        rw [List.length_eq_zero] at hlen0
        have hfmem : ({ p with lastGuess := some w, submitted := true } : Player)
            ∈ (s.players.map (fun q =>
              if q.id = id then { q with lastGuess := some w, submitted := true } else q)).filter
              (fun q => q.submitted) :=
          List.mem_filter.mpr ⟨hmem, by simp⟩
        rw [hlen0] at hfmem
        simp at hfmem
      have hplayers := evaluateRound_players_of_ne
        { s with players := (s.players.map (fun q =>
            if q.id = id then { q with lastGuess := some w, submitted := true } else q)) } hne
      rw [hplayers]
      exact hmark
    · exact hmark
  · intro hnA
    cases hfp : findPlayer s.players id with
    | none => simp [handleSubmitGuess, hfp]
    | some p =>
      by_cases hra : s.game.isRoundActive = true
      · obtain ⟨hst, hev⟩ := hinv1 hra
        by_cases hsub : p.submitted = false
        · exact absurd ⟨hst, hra, hev, p, hfp, hsub⟩ hnA
        · have hsub' : p.submitted = true := by
            cases h : p.submitted
            · exact absurd h hsub
            · rfl
          simp [handleSubmitGuess, hfp, hsub']
      · have hra' : s.game.isRoundActive = false := by
          cases h : s.game.isRoundActive
          · rfl
          · exact absurd h hra
        simp [handleSubmitGuess, hfp, hra']
  · intro p hfp hsub
    simp [handleSubmitGuess, hfp, hsub]

/-- Witness for `c7_submit_guard`: at the reachable state `exReach` (host
"a" joined and started the game) the acceptance branch records the guess. -/
theorem c7_submit_guard_witness :
    Reachable exReach
    ∧ (∃ p, findPlayer exReach.players "a" = some p ∧ p.submitted = false
        ∧ findPlayer (handleSubmitGuess exReach "a" "Sol").state.players "a"
            = some { p with lastGuess := some "Sol", submitted := true }) := by
  have hr : Reachable exReach :=
    Reachable.start _ "a" 0 (Reachable.connect _ "a" "LIDER" Reachable.init)
  refine ⟨hr, (c7_submit_guard exReach "a" "Sol" hr).1 ?_⟩
  exact ⟨rfl, rfl, rfl, ⟨"a", "LIDER", "#E53935", 0, false, none, false⟩, rfl, rfl⟩

/-! ## C8 — chain length across a session -/

/-- The roster update performed by an accepted `submitGuess` (the `map` in
the handler body). -/
def markSub (ps : List Player) (id w : String) : List Player :=
  ps.map (fun q => if q.id = id then { q with lastGuess := some w, submitted := true } else q)

/-- The roster after a list of accepted submissions. -/
def markAll (ps : List Player) (subs : List (String × String)) : List Player :=
  subs.foldl (fun acc pw => markSub acc pw.1 pw.2) ps

/-- Statement helper: a state at the start of a round — status `playing`,
submissions open, no evaluation in flight or parked, timer running, and
nobody has submitted yet. -/
def FreshRound (s : ServerState) : Prop :=
  s.game.status = .playing ∧ s.game.isRoundActive = true ∧ s.game.isEvaluating = false
  ∧ s.pendingEval = none ∧ s.timerActive = true
  ∧ (∀ p ∈ s.players, p.submitted = false)

/-- Statement helper: a well-formed turn script against a fixed roster — at
least one submission, distinct submitters all present in the roster, an
in-range random draw and a successful oracle call. -/
def RoundOK (roster : List String) (ri : RoundInput) : Prop :=
  ri.subs ≠ [] ∧ (ri.subs.map Prod.fst).Nodup ∧ (∀ pw ∈ ri.subs, pw.1 ∈ roster)
  ∧ ri.rand < ri.subs.length ∧ ∃ results, ri.oracle = Except.ok results

theorem markSub_ids (ps : List Player) (a w : String) :
    (markSub ps a w).map (fun p => p.id) = ps.map (fun p => p.id) := by
  unfold markSub
  rw [List.map_map]
  apply List.map_congr_left
  intro q _
  by_cases hq : q.id = a <;> simp [Function.comp, hq]

theorem markAll_ids (subs : List (String × String)) (ps : List Player) :
    (markAll ps subs).map (fun p => p.id) = ps.map (fun p => p.id) := by
  induction subs generalizing ps with
  | nil => rfl
  | cons pw rest ih =>
    show (markAll (markSub ps pw.1 pw.2) rest).map (fun p => p.id) = _
    rw [ih, markSub_ids]

theorem markSub_keeps_submitted (ps : List Player) (a w : String)
    (h : ∃ p ∈ ps, p.submitted = true) :
    ∃ p ∈ markSub ps a w, p.submitted = true := by
  obtain ⟨p, hmem, hsub⟩ := h
  by_cases hq : p.id = a
  · exact ⟨{ p with lastGuess := some w, submitted := true },
      List.mem_map.mpr ⟨p, hmem, by simp [hq]⟩, rfl⟩
  · exact ⟨p, List.mem_map.mpr ⟨p, hmem, by simp [hq]⟩, hsub⟩

theorem markSub_creates_submitted (ps : List Player) (a w : String)
    (h : ∃ p ∈ ps, p.id = a) :
    ∃ p ∈ markSub ps a w, p.submitted = true := by
  obtain ⟨p, hmem, hpid⟩ := h
  exact ⟨{ p with lastGuess := some w, submitted := true },
    List.mem_map.mpr ⟨p, hmem, by simp [hpid]⟩, rfl⟩

theorem markAll_keeps_submitted (subs : List (String × String)) (ps : List Player)
    (h : ∃ p ∈ ps, p.submitted = true) :
    ∃ p ∈ markAll ps subs, p.submitted = true := by
  induction subs generalizing ps with
  | nil => exact h
  | cons pw rest ih =>
    exact ih (markSub ps pw.1 pw.2) (markSub_keeps_submitted ps pw.1 pw.2 h)

theorem markAll_submitted_of_head (pw : String × String) (rest : List (String × String))
    (ps : List Player) (h : ∃ p ∈ ps, p.id = pw.1) :
    ∃ p ∈ markAll ps (pw :: rest), p.submitted = true :=
  markAll_keeps_submitted rest (markSub ps pw.1 pw.2)
    (markSub_creates_submitted ps pw.1 pw.2 h)

theorem guessesOf_length_ne_zero (ps : List Player) (h : ∃ p ∈ ps, p.submitted = true) :
    (guessesOf ps).length ≠ 0 := by
  obtain ⟨p, hmem, hsub⟩ := h
  simp only [guessesOf, List.length_map]
  intro hlen0
  rw [List.length_eq_zero] at hlen0
  have := List.mem_filter.mpr (⟨hmem, by simp [hsub]⟩ :
    p ∈ ps ∧ (fun q => q.submitted) p = true)
  rw [hlen0] at this
  simp at this

/-- Ticks do nothing once the interval is cleared. -/
theorem tickN_inactive (n : Nat) (s : ServerState) (h : s.timerActive = false) :
    (tickN n s).1 = s := by
  induction n with
  | zero => rfl
  | succ m ih =>
    have htick : tick s = ⟨s, [], none⟩ := by
      simp [tick, h]
    show (tickN m (tick s).state).1 = s
    rw [htick]
    exact ih

/-- Running the interval for `timeLeft + 1` ticks fires the evaluation
exactly once, on the state with a spent timer. -/
theorem tickN_expires (n : Nat) (s : ServerState) (hta : s.timerActive = true)
    (hEv : s.game.isEvaluating = false) (htl : s.game.timeLeft = n)
    (hne : (guessesOf s.players).length ≠ 0) :
    (tickN (n + 1) s).1
      = (evaluateRound { s with
          game := { s.game with timeLeft := 0 }
          timerActive := false }).state := by
  induction n generalizing s with
  | zero =>
    have htick : (tick s).state
        = (evaluateRound { s with
            game := { s.game with timeLeft := 0 }
            timerActive := false }).state := by
      obtain ⟨ps, hid, g, ta, pe⟩ := s
      obtain ⟨st, gp, gh, ch, tn, mt, ra, ev, tl⟩ := g
      simp only at htl hta hEv
      subst htl hta hEv
      simp [tick]
    show (tickN 0 (tick s).state).1 = _
    rw [htick]
    rfl
  | succ m ih =>
    by_cases hm : m = 0
    · subst hm
      have htick : (tick s).state
          = (evaluateRound { s with
              game := { s.game with timeLeft := 0 }
              timerActive := false }).state := by
        simp [tick, hta, htl, hEv]
      show (tickN (0 + 1) (tick s).state).1 = _
      rw [htick]
      apply tickN_inactive
      have hflags := evaluateRound_pending
        { s with
          game := { s.game with timeLeft := 0 }
          timerActive := false } hEv hne
      rw [hflags]
    · have htick : (tick s).state = { s with game := { s.game with timeLeft := m } } := by
        simp [tick, hta, htl, hEv, hm]
      show (tickN (m + 1) (tick s).state).1 = _
      rw [htick]
      exact ih { s with game := { s.game with timeLeft := m } } hta hEv rfl hne

/-- Folding a turn's submissions over a fresh round: every submission is
accepted and marks its player; if the submitters cover the whole roster the
last one triggers evaluation, otherwise the round stays open. -/
theorem submitAll_spec (subs : List (String × String)) (s : ServerState)
    (hra : s.game.isRoundActive = true)
    (hnd : (s.players.map (fun p => p.id)).Nodup)
    (hdist : (subs.map Prod.fst).Nodup)
    (hmem : ∀ pw ∈ subs, ∃ p ∈ s.players, p.id = pw.1 ∧ p.submitted = false)
    (hnotall : (s.players.all (fun q => q.submitted)) = false ∨ subs ≠ []) :
    submitAll s subs
      = (if (markAll s.players subs).all (fun q => q.submitted) = true
         then (evaluateRound { s with players := markAll s.players subs }).state
         else { s with players := markAll s.players subs }) := by
  induction subs generalizing s with
  | nil =>
    have hall : (markAll s.players []).all (fun q => q.submitted) = false := by
      rcases hnotall with h | h
      · exact h
      · exact absurd rfl h
    rw [hall, if_neg (show ¬ (false = true) by simp)]
    rfl
  | cons pw rest ih =>
    obtain ⟨p, hpmem, hpid, hpsub⟩ := hmem pw (by simp)
    have hfind : findPlayer s.players pw.1 = some p := by
      cases hf : findPlayer s.players pw.1 with
      | none =>
        have := List.find?_eq_none.mp hf p hpmem
        simp [hpid] at this
      | some q =>
        have hqmem := List.mem_of_find?_eq_some hf
        have hqp := List.find?_some hf
        have hqid : q.id = pw.1 := by simpa using hqp
        have : q = p := List.inj_on_of_nodup_map hnd hqmem hpmem (hqid.trans hpid.symm)
        rw [this]
    have hguard : s.game.isRoundActive = true ∧ p.submitted = false := ⟨hra, hpsub⟩
    obtain ⟨hfst0, hdist1⟩ : (∀ x : String, (pw.1, x) ∉ rest) ∧ (rest.map Prod.fst).Nodup := by
      simpa using hdist
    have hfst : pw.1 ∉ (rest.map Prod.fst) := by
      intro hc
      obtain ⟨pr, hpr, hfstpr⟩ := List.mem_map.mp hc
      obtain ⟨a, b⟩ := pr
      simp only at hfstpr
      subst hfstpr
      exact hfst0 b hpr
    by_cases hall1 : (markSub s.players pw.1 pw.2).all (fun q => q.submitted) = true
    · -- the roster is covered: this submission triggers evaluation, and no
      -- further submissions can exist (their players would be unsubmitted)
      have hrest : rest = [] := by
        cases hcr : rest with
        | nil => rfl
        | cons pw2 rest2 =>
          obtain ⟨q, hqmem, hqid, hqsub⟩ := hmem pw2 (by simp [hcr])
          have hne2 : pw2.1 ≠ pw.1 := by
            intro hc
            apply hfst
            rw [← hc, hcr]
            simp
          have hqmark : q ∈ markSub s.players pw.1 pw.2 := by
            refine List.mem_map.mpr ⟨q, hqmem, ?_⟩
            rw [if_neg (by rw [hqid]; exact hne2)]
          have := List.all_eq_true.mp hall1 q hqmark
          rw [hqsub] at this
          exact absurd this (by simp)
      subst hrest
      have hstate : (handleSubmitGuess s pw.1 pw.2).state
          = (evaluateRound { s with players := markSub s.players pw.1 pw.2 }).state := by
        simp only [handleSubmitGuess, hfind, if_pos hguard]
        rw [if_pos (show (List.map (fun q => if q.id = pw.1 then
          { q with lastGuess := some pw.2, submitted := true } else q) s.players).all
          (fun q => q.submitted) = true from hall1)]
        rfl
      have hcond : (markAll s.players [pw]).all (fun q => q.submitted) = true := hall1
      rw [hcond]
      show (submitAll (handleSubmitGuess s pw.1 pw.2).state []) = _
      rw [show ∀ t : ServerState, submitAll t [] = t from fun _ => rfl, hstate]
      rfl
    · have hall1' : (markSub s.players pw.1 pw.2).all (fun q => q.submitted) = false := by
        cases h : (markSub s.players pw.1 pw.2).all (fun q => q.submitted)
        · rfl
        · exact absurd h hall1
      have hstate : (handleSubmitGuess s pw.1 pw.2).state
          = { s with players := markSub s.players pw.1 pw.2 } := by
        simp only [handleSubmitGuess, hfind, if_pos hguard]
        rw [if_neg (show ¬ ((List.map (fun q => if q.id = pw.1 then
          { q with lastGuess := some pw.2, submitted := true } else q) s.players).all
          (fun q => q.submitted) = true) from by rw [show (List.map (fun q =>
            if q.id = pw.1 then { q with lastGuess := some pw.2, submitted := true } else q)
            s.players) = markSub s.players pw.1 pw.2 from rfl, hall1']; simp)]
        rfl
      have hnd1 : ((markSub s.players pw.1 pw.2).map (fun p => p.id)).Nodup := by
        rw [markSub_ids]
        exact hnd
      have hmem1 : ∀ pw2 ∈ rest, ∃ q ∈ markSub s.players pw.1 pw.2,
          q.id = pw2.1 ∧ q.submitted = false := by
        intro pw2 h2
        obtain ⟨q, hqmem, hqid, hqsub⟩ := hmem pw2 (by simp [h2])
        have hne2 : pw2.1 ≠ pw.1 := by
          intro hc
          apply hfst
          rw [← hc]
          exact List.mem_map_of_mem Prod.fst h2
        refine ⟨q, ?_, hqid, hqsub⟩
        refine List.mem_map.mpr ⟨q, hqmem, ?_⟩
        rw [if_neg (by rw [hqid]; exact hne2)]
      have hih := ih { s with players := markSub s.players pw.1 pw.2 } hra hnd1 hdist1
        hmem1 (Or.inl hall1')
      show (submitAll (handleSubmitGuess s pw.1 pw.2).state rest) = _
      rw [hstate]
      exact hih

theorem startNextTurn_ids (s : ServerState) :
    (startNextTurn s).1.players.map (fun p => p.id) = s.players.map (fun p => p.id) := by
  unfold startNextTurn
  split <;> simp [startTurnTimer, List.map_map, Function.comp]

theorem startNextTurn_pendingEval (s : ServerState) :
    (startNextTurn s).1.pendingEval = s.pendingEval := by
  unfold startNextTurn
  split <;> simp [startTurnTimer]

theorem startNextTurn_next (s : ServerState) (hlt : s.game.turn < MAX_TURNS) :
    (startNextTurn s).1.game.status = s.game.status
    ∧ (startNextTurn s).1.game.turn = s.game.turn + 1
    ∧ (startNextTurn s).1.game.isRoundActive = true
    ∧ (startNextTurn s).1.game.isEvaluating = false
    ∧ (startNextTurn s).1.timerActive = true
    ∧ ∀ p ∈ (startNextTurn s).1.players, p.submitted = false := by
  unfold startNextTurn startTurnTimer
  rw [if_neg (by omega)]
  refine ⟨rfl, rfl, rfl, rfl, rfl, ?_⟩
  intro p hp
  simp only [List.mem_map] at hp
  obtain ⟨q, _, rfl⟩ := hp
  rfl

theorem startNextTurn_finish (s : ServerState) (hge : MAX_TURNS ≤ s.game.turn) :
    (startNextTurn s).1.game.status = .finished := by
  unfold startNextTurn
  rw [if_pos hge]

/-- A resumed evaluation on a successful oracle call with an in-range random
draw: the chain grows by exactly one node, the roster identities survive,
and the session either moves to a fresh next round or finishes. -/
theorem resume_success_spec (s : ServerState) (gs : List Guess)
    (results : List OracleResult) (rand : Nat)
    (hp : s.pendingEval = some gs) (hgs : gs = guessesOf s.players)
    (hnd : (s.players.map (fun p => p.id)).Nodup) (hne : gs ≠ [])
    (hrand : rand < gs.length) :
    (∃ n, (evaluateRoundResume s (Except.ok results) rand).1.game.chain
        = s.game.chain ++ [n])
    ∧ (evaluateRoundResume s (Except.ok results) rand).1.players.map (fun p => p.id)
        = s.players.map (fun p => p.id)
    ∧ (evaluateRoundResume s (Except.ok results) rand).1.pendingEval = none
    ∧ (if s.game.turn < MAX_TURNS then
        (evaluateRoundResume s (Except.ok results) rand).1.game.status = s.game.status
        ∧ (evaluateRoundResume s (Except.ok results) rand).1.game.turn = s.game.turn + 1
        ∧ (evaluateRoundResume s (Except.ok results) rand).1.game.isRoundActive = true
        ∧ (evaluateRoundResume s (Except.ok results) rand).1.game.isEvaluating = false
        ∧ (evaluateRoundResume s (Except.ok results) rand).1.timerActive = true
        ∧ ∀ p ∈ (evaluateRoundResume s (Except.ok results) rand).1.players,
            p.submitted = false
      else (evaluateRoundResume s (Except.ok results) rand).1.game.status = .finished) := by
  have hpairs : (results.foldl applyResult gs).map (fun g => (g.groupId, g.word))
      = gs.map (fun g => (g.groupId, g.word)) := foldl_applyResult_map_key results gs
  have hids : (results.foldl applyResult gs).map (fun g => g.groupId)
      = gs.map (fun g => g.groupId) := by
    have h1 := congrArg (List.map Prod.fst) hpairs
    simpa [List.map_map, Function.comp] using h1
  have hgsids : gs.map (fun g => g.groupId)
      = (s.players.filter (fun p => p.submitted)).map (fun p => p.id) := by
    rw [hgs]
    exact guessesOf_map_groupId s.players
  have hsubnd : ((s.players.filter (fun p => p.submitted)).map (fun p => p.id)).Nodup :=
    ((List.filter_sublist s.players).map (fun p => p.id)).nodup hnd
  have hscorednd : ((results.foldl applyResult gs).map (fun g => g.groupId)).Nodup := by
    rw [hids, hgsids]
    exact hsubnd
  have hsortperm := sortGuesses_perm (results.foldl applyResult gs)
  have hsortnd : ((sortGuesses (results.foldl applyResult gs)).map
      (fun g => g.groupId)).Nodup := by
    rw [((hsortperm.map (fun g => g.groupId)).nodup_iff)]
    exact hscorednd
  have hpresent : ∀ g ∈ sortGuesses (results.foldl applyResult gs),
      (findPlayer s.players g.groupId).isSome = true := by
    intro g hg
    have hg2 : g ∈ results.foldl applyResult gs := hsortperm.mem_iff.mp hg
    have hg3 : g.groupId ∈ (results.foldl applyResult gs).map (fun g => g.groupId) :=
      List.mem_map_of_mem _ hg2
    rw [hids, hgsids] at hg3
    obtain ⟨q, hqmem, hqid⟩ := List.mem_map.mp hg3
    exact List.find?_isSome.mpr ⟨q, List.mem_of_mem_filter hqmem, by simp [hqid]⟩
  have hlen : (sortGuesses (results.foldl applyResult gs)).length = gs.length := by
    rw [length_sortGuesses, length_foldl_applyResult]
  obtain ⟨w, rest', hsort⟩ : ∃ w rest',
      sortGuesses (results.foldl applyResult gs) = w :: rest' := by
    cases hs : sortGuesses (results.foldl applyResult gs) with
    | nil =>
      rw [hs] at hlen
      exact absurd (List.length_eq_zero.mp hlen.symm) hne
    | cons w r => exact ⟨w, r, rfl⟩
  obtain ⟨wp, hfw⟩ : ∃ wp, findPlayer s.players w.groupId = some wp := by
    have := hpresent w (by rw [hsort]; simp)
    cases h : findPlayer s.players w.groupId with
    | none => rw [h] at this; simp at this
    | some p => exact ⟨p, rfl⟩
  have hspec := scoreLoop_spec (w :: rest') s.players w.groupId
    (by rw [← hsort]; exact hpresent) (by rw [← hsort]; exact hsortnd)
  simp only [evaluateRoundResume, hp, hsort, hfw]
  rcases hsl : scoreLoop s.players w.groupId (w :: rest') with ⟨ps1, body, okv⟩
  rw [hsl] at hspec
  obtain ⟨hspec1, hspec2⟩ := hspec
  simp only at hspec1 hspec2
  subst hspec2
  simp only [hsl, if_true]
  have hids1 : ps1.map (fun p => p.id) = s.players.map (fun p => p.id) := by
    rw [hspec1, List.map_map]
    apply List.map_congr_left
    intro q _
    cases hf : (w :: rest').find? (fun g => g.groupId == q.id) <;>
      simp [Function.comp, hf]
  rcases hget : (w :: rest').get? rand with _ | nd
  · exfalso
    rw [List.get?_eq_none] at hget
    rw [hsort] at hlen
    omega
  · simp only [hget]
    refine ⟨⟨⟨nd.word, some nd.groupId⟩, ?_⟩, ?_, ?_, ?_⟩
    · rw [chain_startNextTurn]
    · rw [startNextTurn_ids]
      exact hids1
    · rw [startNextTurn_pendingEval]
    · by_cases hT : s.game.turn < MAX_TURNS
      · rw [if_pos hT]
        obtain ⟨ha, hb, hc, hd, he, hf⟩ := startNextTurn_next
          { s with
            pendingEval := none
            players := ps1
            game := { s.game with chain := s.game.chain ++ [⟨nd.word, some nd.groupId⟩] } }
          hT
        exact ⟨ha, hb, hc, hd, he, hf⟩
      · rw [if_neg hT]
        exact startNextTurn_finish
          { s with
            pendingEval := none
            players := ps1
            game := { s.game with chain := s.game.chain ++ [⟨nd.word, some nd.groupId⟩] } }
          (show MAX_TURNS ≤ s.game.turn by omega)

theorem markSub_no_match (ps : List Player) (a w : String)
    (h : ∀ p ∈ ps, p.id ≠ a) : markSub ps a w = ps := by
  unfold markSub
  have hcongr : ps.map (fun q =>
      if q.id = a then { q with lastGuess := some w, submitted := true } else q)
      = ps.map (fun q => q) := by
    apply List.map_congr_left
    intro q hq
    rw [if_neg (h q hq)]
  rw [hcongr, List.map_id']

theorem filter_submitted_markSub (a w : String) : ∀ (ps : List Player),
    (ps.map (fun p => p.id)).Nodup →
    ∀ p0 : Player, p0 ∈ ps → p0.id = a → p0.submitted = false →
    ((markSub ps a w).filter (fun q => q.submitted)).length
      = (ps.filter (fun q => q.submitted)).length + 1 := by
  intro ps
  induction ps with
  | nil =>
    intro _ p0 hmem _ _
    simp at hmem
  | cons q t ih =>
    intro hnd p0 hmem hid hsub
    obtain ⟨hqnotin, hndt⟩ : (∀ x ∈ t, ¬ x.id = q.id) ∧ (t.map (fun p => p.id)).Nodup := by
      simpa using hnd
    by_cases hq : q.id = a
    · have hteq : markSub t a w = t := by
        apply markSub_no_match
        intro x hx hxa
        exact hqnotin x hx (hxa.trans hq.symm)
      have hq0 : q = p0 := by
        rcases List.mem_cons.mp hmem with h | h
        · exact h.symm
        · exact absurd (hid.trans hq.symm) (hqnotin p0 h)
      show (((if q.id = a then { q with lastGuess := some w, submitted := true } else q)
          :: markSub t a w).filter (fun q => q.submitted)).length = _
      rw [if_pos hq, hteq]
      rw [List.filter_cons, List.filter_cons]
      have hqsub : q.submitted = false := by rw [hq0]; exact hsub
      simp [hqsub]
    · have hp0t : p0 ∈ t := by
        rcases List.mem_cons.mp hmem with h | h
        · subst h
          exact absurd hid hq
        · exact h
      show (((if q.id = a then { q with lastGuess := some w, submitted := true } else q)
          :: markSub t a w).filter (fun q => q.submitted)).length = _
      rw [if_neg hq]
      rw [List.filter_cons, List.filter_cons]
      cases hqs : q.submitted <;>
        simp [hqs, ih hndt p0 hp0t hid hsub]

theorem filter_submitted_markAll (subs : List (String × String)) (ps : List Player)
    (hnd : (ps.map (fun p => p.id)).Nodup) (hdist : (subs.map Prod.fst).Nodup)
    (hmem : ∀ pw ∈ subs, ∃ p ∈ ps, p.id = pw.1 ∧ p.submitted = false) :
    ((markAll ps subs).filter (fun q => q.submitted)).length
      = (ps.filter (fun q => q.submitted)).length + subs.length := by
  induction subs generalizing ps with
  | nil => rfl
  | cons pw rest ih =>
    obtain ⟨p0, hp0mem, hp0id, hp0sub⟩ := hmem pw (by simp)
    obtain ⟨hfst0, hdist1⟩ : (∀ x : String, (pw.1, x) ∉ rest)
        ∧ (rest.map Prod.fst).Nodup := by simpa using hdist
    have hnd1 : ((markSub ps pw.1 pw.2).map (fun p => p.id)).Nodup := by
      rw [markSub_ids]
      exact hnd
    have hmem1 : ∀ pw2 ∈ rest, ∃ q ∈ markSub ps pw.1 pw.2,
        q.id = pw2.1 ∧ q.submitted = false := by
      intro pw2 h2
      obtain ⟨q, hqmem, hqid, hqsub⟩ := hmem pw2 (by simp [h2])
      have hne2 : pw2.1 ≠ pw.1 := by
        intro hc
        obtain ⟨a, b⟩ := pw2
        simp only at hc
        subst hc
        exact hfst0 b h2
      refine ⟨q, List.mem_map.mpr ⟨q, hqmem, ?_⟩, hqid, hqsub⟩
      rw [if_neg (by rw [hqid]; exact hne2)]
    show ((markAll (markSub ps pw.1 pw.2) rest).filter (fun q => q.submitted)).length = _
    rw [ih (markSub ps pw.1 pw.2) hnd1 hdist1 hmem1,
      filter_submitted_markSub pw.1 pw.2 ps hnd p0 hp0mem hp0id hp0sub,
      List.length_cons]
    omega

/-- Assembly step shared by the two trigger paths of a played round: once
the turn's submissions have left the server suspended on the oracle call in
state `S`, resuming with the successful response yields the round
conclusions relative to the round's starting state `s0`. -/
theorem playRound_assemble (s0 S : ServerState) (ri : RoundInput)
    (results : List OracleResult)
    (hSpend : S.pendingEval = some (guessesOf S.players))
    (hSnd : (S.players.map (fun p => p.id)).Nodup)
    (hSne : guessesOf S.players ≠ [])
    (hSrand : ri.rand < (guessesOf S.players).length)
    (hSchain : S.game.chain = s0.game.chain)
    (hSturn : S.game.turn = s0.game.turn)
    (hSstatus : S.game.status = s0.game.status)
    (hSids : S.players.map (fun p => p.id) = s0.players.map (fun p => p.id))
    (hst : s0.game.status = .playing)
    (hplay : playRound s0 ri = (evaluateRoundResume S (Except.ok results) ri.rand).1) :
    (∃ n, (playRound s0 ri).game.chain = s0.game.chain ++ [n])
    ∧ (playRound s0 ri).players.map (fun p => p.id) = s0.players.map (fun p => p.id)
    ∧ (if s0.game.turn < MAX_TURNS
       then FreshRound (playRound s0 ri)
         ∧ (playRound s0 ri).game.turn = s0.game.turn + 1
       else (playRound s0 ri).game.status = Status.finished) := by
  rw [hplay]
  have hres := resume_success_spec S (guessesOf S.players) results ri.rand hSpend rfl
    hSnd hSne hSrand
  refine ⟨?_, ?_, ?_⟩
  · obtain ⟨n, hn⟩ := hres.1
    exact ⟨n, by rw [hn, hSchain]⟩
  · rw [hres.2.1, hSids]
  · have h4 := hres.2.2.2
    by_cases hT : s0.game.turn < MAX_TURNS
    · rw [if_pos hT]
      rw [if_pos (show S.game.turn < MAX_TURNS by rw [hSturn]; exact hT)] at h4
      obtain ⟨ha, hb, hc, hd, he, hfq⟩ := h4
      refine ⟨⟨?_, hc, hd, hres.2.2.1, he, hfq⟩, ?_⟩
      · rw [ha, hSstatus, hst]
      · rw [hb, hSturn]
    · rw [if_neg hT]
      rw [if_neg (show ¬ S.game.turn < MAX_TURNS by rw [hSturn]; exact hT)] at h4
      exact h4

/-- One full scripted turn from a fresh round: the chain grows by exactly
one node, the roster identities survive, and the session either reaches the
next fresh round (turn + 1) or finishes. -/
theorem playRound_spec (s : ServerState) (ri : RoundInput)
    (hfresh : FreshRound s) (hnd : (s.players.map (fun p => p.id)).Nodup)
    (hok : RoundOK (s.players.map (fun p => p.id)) ri) :
    (∃ n, (playRound s ri).game.chain = s.game.chain ++ [n])
    ∧ (playRound s ri).players.map (fun p => p.id) = s.players.map (fun p => p.id)
    ∧ (if s.game.turn < MAX_TURNS
       then FreshRound (playRound s ri)
         ∧ (playRound s ri).game.turn = s.game.turn + 1
       else (playRound s ri).game.status = Status.finished) := by
  obtain ⟨hst, hra, hEv, hpe, hta, hunsub⟩ := hfresh
  obtain ⟨hsne, hdist, hroster, hrand, results, horacle⟩ := hok
  have hmem : ∀ pw ∈ ri.subs, ∃ p ∈ s.players, p.id = pw.1 ∧ p.submitted = false := by
    intro pw hpw
    obtain ⟨p, hpmem, hpid⟩ := List.mem_map.mp (hroster pw hpw)
    exact ⟨p, hpmem, hpid, hunsub p hpmem⟩
  have hfold := submitAll_spec ri.subs s hra hnd hdist hmem (Or.inr hsne)
  have hndm : ((markAll s.players ri.subs).map (fun p => p.id)).Nodup := by
    rw [markAll_ids]
    exact hnd
  have hfilter0 : (s.players.filter (fun q => q.submitted)) = [] := by
    apply List.filter_eq_nil_iff.mpr
    intro p hp
    simp [hunsub p hp]
  have hglen : (guessesOf (markAll s.players ri.subs)).length = ri.subs.length := by
    simp only [guessesOf, List.length_map]
    rw [filter_submitted_markAll ri.subs s.players hnd hdist hmem, hfilter0]
    simp
  have hgne : (guessesOf (markAll s.players ri.subs)).length ≠ 0 := by
    rw [hglen]
    intro h0
    exact hsne (List.length_eq_zero.mp h0)
  have hgnil : guessesOf (markAll s.players ri.subs) ≠ [] := by
    intro h0
    exact hgne (by rw [h0]; rfl)
  have hgrand : ri.rand < (guessesOf (markAll s.players ri.subs)).length := by
    rw [hglen]
    exact hrand
  by_cases hall : (markAll s.players ri.subs).all (fun q => q.submitted) = true
  · rw [if_pos hall] at hfold
    have hpend := evaluateRound_pending
      { s with players := markAll s.players ri.subs } hEv hgne
    have hplay : playRound s ri
        = (evaluateRoundResume
            (evaluateRound { s with players := markAll s.players ri.subs }).state
            (Except.ok results) ri.rand).1 := by
      simp only [playRound]
      rw [hfold, horacle,
        tickN_inactive
          ((evaluateRound { s with players := markAll s.players ri.subs }).state.game.timeLeft
            + 1)
          (evaluateRound { s with players := markAll s.players ri.subs }).state
          (by rw [hpend])]
    exact playRound_assemble s
      (evaluateRound { s with players := markAll s.players ri.subs }).state ri results
      (by rw [hpend]) (by rw [hpend]; exact hndm) (by rw [hpend]; exact hgnil)
      (by rw [hpend]; exact hgrand) (by rw [hpend]) (by rw [hpend]) (by rw [hpend])
      (by rw [hpend]; exact (markAll_ids ri.subs s.players)) hst hplay
  · rw [if_neg hall] at hfold
    have hexp := tickN_expires
      ({ s with players := markAll s.players ri.subs } : ServerState).game.timeLeft
      { s with players := markAll s.players ri.subs } hta hEv rfl hgne
    have hpend := evaluateRound_pending
      { s with
        players := markAll s.players ri.subs
        game := { s.game with timeLeft := 0 }
        timerActive := false } hEv hgne
    have hplay : playRound s ri
        = (evaluateRoundResume
            (evaluateRound { s with
              players := markAll s.players ri.subs
              game := { s.game with timeLeft := 0 }
              timerActive := false }).state
            (Except.ok results) ri.rand).1 := by
      simp only [playRound]
      rw [hfold, horacle, hexp]
    exact playRound_assemble s
      (evaluateRound { s with
        players := markAll s.players ri.subs
        game := { s.game with timeLeft := 0 }
        timerActive := false }).state ri results
      (by rw [hpend]) (by rw [hpend]; exact hndm) (by rw [hpend]; exact hgnil)
      (by rw [hpend]; exact hgrand) (by rw [hpend]) (by rw [hpend]) (by rw [hpend])
      (by rw [hpend]; exact (markAll_ids ri.subs s.players)) hst hplay

/-- Playing a list of well-formed turns from a fresh round appends exactly
one chain node per turn and preserves the roster identities. -/
theorem runRounds_spec (rs : List RoundInput) : ∀ (s : ServerState),
    FreshRound s → (s.players.map (fun p => p.id)).Nodup →
    (∀ ri ∈ rs, RoundOK (s.players.map (fun p => p.id)) ri) →
    s.game.turn + rs.length ≤ MAX_TURNS + 1 →
    ∃ tail : List ChainNode,
      (runRounds s rs).game.chain = s.game.chain ++ tail
      ∧ tail.length = rs.length
      ∧ (runRounds s rs).players.map (fun p => p.id)
          = s.players.map (fun p => p.id) := by
  induction rs with
  | nil =>
    intro s _ _ _ _
    exact ⟨[], by simp [runRounds], rfl, rfl⟩
  | cons r rest ih =>
    intro s hfresh hnd hok hT
    obtain ⟨⟨n, hchain⟩, hids, hcase⟩ :=
      playRound_spec s r hfresh hnd (hok r (List.mem_cons_self r rest))
    by_cases hrest : rest = []
    · subst hrest
      refine ⟨[n], ?_, rfl, ?_⟩
      · simp only [runRounds, List.foldl_cons, List.foldl_nil]
        exact hchain
      · simp only [runRounds, List.foldl_cons, List.foldl_nil]
        exact hids
    · have h1 : 0 < rest.length := List.length_pos.mpr hrest
      simp only [List.length_cons] at hT
      have hlt : s.game.turn < MAX_TURNS := by omega
      rw [if_pos hlt] at hcase
      obtain ⟨hfresh1, hturn1⟩ := hcase
      have hnd1 : ((playRound s r).players.map (fun p => p.id)).Nodup := by
        rw [hids]
        exact hnd
      have hok1 : ∀ ri ∈ rest,
          RoundOK ((playRound s r).players.map (fun p => p.id)) ri := by
        intro ri hri
        rw [hids]
        exact hok ri (List.mem_cons_of_mem r hri)
      have hT1 : (playRound s r).game.turn + rest.length ≤ MAX_TURNS + 1 := by
        rw [hturn1]
        omega
      obtain ⟨tail, htc, htl, hti⟩ := ih (playRound s r) hfresh1 hnd1 hok1 hT1
      simp only [runRounds] at htc hti
      refine ⟨n :: tail, ?_, ?_, ?_⟩
      · simp only [runRounds, List.foldl_cons]
        rw [htc, hchain, List.append_assoc]
        rfl
      · simp [htl]
      · simp only [runRounds, List.foldl_cons]
        rw [hti, hids]

/-- C8: in a session started by an accepted `startGame`, where each of the
first T turns has at least one submission (distinct in-roster submitters)
and a successful oracle call, the chain after turn T has length T + 1: the
single seed node created by `resetGame` plus exactly one node appended per
completed round, and the chain only ever grows by appending (the post-start
chain is a prefix of the final chain). -/
theorem c8_chain_length (s : ServerState) (id : String) (r : Nat)
    (rs : List RoundInput)
    (hacc : s.hostId = some id ∧ s.game.status ≠ .playing)
    (hpe : s.pendingEval = none)
    (hnd : (s.players.map (fun p => p.id)).Nodup)
    (hok : ∀ ri ∈ rs, RoundOK (s.players.map (fun p => p.id)) ri)
    (hT : rs.length ≤ MAX_TURNS) :
    ∃ tail : List ChainNode,
      (runRounds (handleStartGame s id r).1 rs).game.chain
        = (handleStartGame s id r).1.game.chain ++ tail
      ∧ tail.length = rs.length
      ∧ (handleStartGame s id r).1.game.chain.length = 1
      ∧ (runRounds (handleStartGame s id r).1 rs).game.chain.length
          = rs.length + 1 := by
  have hS0 : (handleStartGame s id r).1
      = { s with
          players := s.players.map
            (fun p => { p with score := 0, submitted := false, lastGuess := none })
          game :=
            { status := .playing
              gamePlayers := s.players.map
                (fun p => { p with score := 0, submitted := false, lastGuess := none })
              gameHostId := s.hostId
              chain := [⟨seedWords.getD r "", none⟩]
              turn := 1
              maxTurns := MAX_TURNS
              isRoundActive := true
              isEvaluating := false
              timeLeft := TURN_DURATION }
          timerActive := true } := by
    unfold handleStartGame
    rw [if_pos hacc]
    rfl
  have hfresh : FreshRound (handleStartGame s id r).1 := by
    rw [hS0]
    refine ⟨rfl, rfl, rfl, hpe, rfl, ?_⟩
    intro p hp
    simp only [List.mem_map] at hp
    obtain ⟨q, _, hq⟩ := hp
    rw [← hq]
  have hids0 : (handleStartGame s id r).1.players.map (fun p => p.id)
      = s.players.map (fun p => p.id) := by
    rw [hS0]
    show (s.players.map _).map _ = _
    rw [List.map_map]
    exact List.map_congr_left (fun q _ => rfl)
  have hnd0 : ((handleStartGame s id r).1.players.map (fun p => p.id)).Nodup := by
    rw [hids0]
    exact hnd
  have hok0 : ∀ ri ∈ rs,
      RoundOK ((handleStartGame s id r).1.players.map (fun p => p.id)) ri := by
    rw [hids0]
    exact hok
  have hturn0 : (handleStartGame s id r).1.game.turn = 1 := by
    rw [hS0]
  have hT0 : (handleStartGame s id r).1.game.turn + rs.length ≤ MAX_TURNS + 1 := by
    rw [hturn0]
    omega
  obtain ⟨tail, hc, hl, _⟩ :=
    runRounds_spec rs (handleStartGame s id r).1 hfresh hnd0 hok0 hT0
  have hlen1 : (handleStartGame s id r).1.game.chain.length = 1 := by
    rw [hS0]
    rfl
  refine ⟨tail, hc, hl, hlen1, ?_⟩
  rw [hc, List.length_append, hlen1, hl]
  omega

/-- C8 witness: a host-started two-turn session — host "a" joins as LIDER,
starts the game with seed 0, and each of the two turns has one submission
and a successful oracle response; the final chain has length 3. -/
theorem c8_chain_length_witness :
    ∃ tail : List ChainNode,
      (runRounds
        (handleStartGame (handleConnection initialState "a" "LIDER").1 "a" 0).1
        [⟨[("a", "Carro")], Except.ok [⟨"Carro", 60⟩], 0⟩,
         ⟨[("a", "Sol")], Except.ok [⟨"Sol", 10⟩], 0⟩]).game.chain
        = (handleStartGame (handleConnection initialState "a" "LIDER").1 "a" 0).1.game.chain
          ++ tail
      ∧ tail.length = 2
      ∧ (handleStartGame (handleConnection initialState "a" "LIDER").1 "a" 0).1.game.chain.length
          = 1
      ∧ (runRounds
          (handleStartGame (handleConnection initialState "a" "LIDER").1 "a" 0).1
          [⟨[("a", "Carro")], Except.ok [⟨"Carro", 60⟩], 0⟩,
           ⟨[("a", "Sol")], Except.ok [⟨"Sol", 10⟩], 0⟩]).game.chain.length
          = 2 + 1 :=
  c8_chain_length (handleConnection initialState "a" "LIDER").1 "a" 0
    [⟨[("a", "Carro")], Except.ok [⟨"Carro", 60⟩], 0⟩,
     ⟨[("a", "Sol")], Except.ok [⟨"Sol", 10⟩], 0⟩]
    ⟨by decide, by decide⟩ (by decide) (by decide)
    (by
      intro ri hri
      simp only [List.mem_cons, List.not_mem_nil, or_false] at hri
      rcases hri with h | h
      · subst h
        exact ⟨by decide, by decide, by decide, by decide,
          ⟨[⟨"Carro", 60⟩], rfl⟩⟩
      · subst h
        exact ⟨by decide, by decide, by decide, by decide,
          ⟨[⟨"Sol", 10⟩], rfl⟩⟩)
    (by decide)

end Jogo
